import Mathlib

/-!
Verification of the Sudoku constraint engine of the ncurses-sudoku repository.

The C sources (src/solver.c, src/generator.c, src/game.c) are shallowly
embedded: a 9x9 int grid becomes a function from a pair of naturals to a
natural (only indices 0..8 are ever relevant), in-place mutation becomes
explicit state passing, and the recursive backtracking procedures become
fuel-indexed structural recursions where the fuel dominates the number of
empty cells, exactly the depth bound of the C recursion.
-/

/-- A 9x9 Sudoku grid: cell values indexed by row and column; 0 is empty.
Only indices 0..8 matter; the functions below never read outside them. -/
def Grid : Type := Nat → Nat → Nat

/-- Write value v at cell (r, c), modelling the C assignment grid[r][c] = v. -/
def setCell (g : Grid) (r c v : Nat) : Grid :=
  fun i j => if i = r ∧ j = c then v else g i j

/-- Build a grid from a list of rows (missing entries read as 0). -/
def ofRows (rows : List (List Nat)) : Grid :=
  fun r c => (rows.getD r []).getD c 0

/-- The all-empty grid, the state after step 1 of generate_puzzle. -/
def zeroGrid : Grid := fun _ _ => 0

/-- Two grids agree on the 9x9 playing area. -/
def gridEq (g1 g2 : Grid) : Prop :=
  ∀ r, r < 9 → ∀ c, c < 9 → g1 r c = g2 r c

theorem setCell_at (g : Grid) (r c v : Nat) : setCell g r c v r c = v := by
  simp [setCell]

theorem setCell_ne (g : Grid) {r c i j : Nat} (v : Nat) (h : ¬(i = r ∧ j = c)) :
    setCell g r c v i j = g i j := by
  simp [setCell, h]

theorem setCell_cancel (g : Grid) {r c : Nat} (v : Nat) (h : g r c = 0) :
    setCell (setCell g r c v) r c 0 = g := by
  funext i j
  by_cases hij : i = r ∧ j = c
  · simp [setCell, hij, hij.1, hij.2, h.symm]
  · simp [setCell, hij]

theorem setCell_restore (g : Grid) (r c : Nat) :
    setCell (setCell g r c 0) r c (g r c) = g := by
  funext i j
  by_cases hij : i = r ∧ j = c
  · simp [setCell, hij, hij.1, hij.2]
  · simp [setCell, hij]

/-- First value of f on the list that is not none; models an early-return
scan loop in C. -/
def firstSome {α β : Type} (f : α → Option β) : List α → Option β
  | [] => none
  | a :: l =>
    match f a with
    | some b => some b
    | none => firstSome f l

theorem firstSome_eq_none {α β : Type} (f : α → Option β) :
    ∀ l : List α, firstSome f l = none ↔ ∀ a ∈ l, f a = none := by
  intro l
  induction l with
  | nil => simp [firstSome]
  | cons a l ih =>
    cases h : f a with
    | some b => simp [firstSome, h]
    | none => simpa [firstSome, h] using ih

theorem firstSome_mem {α β : Type} (f : α → Option β) :
    ∀ {l : List α} {b : β}, firstSome f l = some b → ∃ a ∈ l, f a = some b := by
  intro l
  induction l with
  | nil => intro b h; simp [firstSome] at h
  | cons a l ih =>
    intro b h
    cases ha : f a with
    | some b0 =>
      refine ⟨a, by simp, ?_⟩
      simp [firstSome, ha] at h
      rw [ha, h]
    | none =>
      have := ih (by simpa [firstSome, ha] using h)
      obtain ⟨a0, ha0, hfa0⟩ := this
      exact ⟨a0, by simp [ha0], hfa0⟩

/-- First-of-two cascade on options: the shape of an early-return sequence
of strategies in C. -/
def orElseO {α : Type} (x y : Option α) : Option α :=
  match x with
  | some b => some b
  | none => y

theorem firstSome_append {α β : Type} (f : α → Option β) (l1 l2 : List α) :
    firstSome f (l1 ++ l2) = orElseO (firstSome f l1) (firstSome f l2) := by
  induction l1 with
  | nil => simp [firstSome, orElseO]
  | cons a l ih =>
    cases ha : f a <;> simp [firstSome, orElseO, ha, ih]

/-- Embedding of find_empty_cell (solver.c:16): row-major scan for the first
cell whose value is 0, returning its coordinates. -/
def find_empty_cell (g : Grid) : Option (Nat × Nat) :=
  firstSome
    (fun r =>
      firstSome (fun c => if g r c = 0 then some (r, c) else none) (List.range 9))
    (List.range 9)

theorem find_empty_cell_none (g : Grid) :
    find_empty_cell g = none ↔ ∀ r, r < 9 → ∀ c, c < 9 → g r c ≠ 0 := by
  unfold find_empty_cell
  rw [firstSome_eq_none]
  constructor
  · intro h r hr c hc hz
    have := (firstSome_eq_none _ _).1 (h r (by simpa using hr)) c (by simpa using hc)
    simp [hz] at this
  · intro h r hr
    rw [firstSome_eq_none]
    intro c hc
    simp only [List.mem_range] at hr hc
    simp [h r hr c hc]

theorem find_empty_cell_some {g : Grid} {r c : Nat}
    (h : find_empty_cell g = some (r, c)) : r < 9 ∧ c < 9 ∧ g r c = 0 := by
  unfold find_empty_cell at h
  obtain ⟨r0, hr0, h0⟩ := firstSome_mem _ h
  obtain ⟨c0, hc0, h1⟩ := firstSome_mem _ h0
  simp only [List.mem_range] at hr0 hc0
  by_cases hz : g r0 c0 = 0
  · simp [hz] at h1
    obtain ⟨hr, hc⟩ := h1
    subst hr; subst hc
    exact ⟨hr0, hc0, hz⟩
  · simp [hz] at h1

/-- Embedding of is_valid_placement (solver.c:138): placing num at (row, col)
is valid when no other cell in the same column, row, or 3x3 box holds num.
The three scans mirror the three C loops; the target cell itself is excluded
from each scan. -/
def is_valid_placement (g : Grid) (row col num : Nat) : Bool :=
  ((List.range 9).all fun x => x == row || !(g x col == num)) &&
  (((List.range 9).all fun y => y == col || !(g row y == num)) &&
   ((List.range 3).all fun dx =>
     (List.range 3).all fun dy =>
       (row / 3 * 3 + dx == row && col / 3 * 3 + dy == col) ||
       !(g (row / 3 * 3 + dx) (col / 3 * 3 + dy) == num)))

/-- Declarative reading of the checker contract: no cell other than the
target, in the same column, row, or box, holds num. -/
def validAt (g : Grid) (row col num : Nat) : Prop :=
  (∀ x, x < 9 → x ≠ row → g x col ≠ num) ∧
  (∀ y, y < 9 → y ≠ col → g row y ≠ num) ∧
  (∀ x y, x < 9 → y < 9 → x / 3 = row / 3 → y / 3 = col / 3 →
    ¬(x = row ∧ y = col) → g x y ≠ num)

/-- Existence of a conflicting other cell in the row, column, or box of the
target; the property the claim about the checker quantifies over. -/
def conflictsAt (g : Grid) (row col num : Nat) : Prop :=
  ∃ x y, x < 9 ∧ y < 9 ∧ ¬(x = row ∧ y = col) ∧
    (x = row ∨ y = col ∨ (x / 3 = row / 3 ∧ y / 3 = col / 3)) ∧
    g x y = num

theorem is_valid_placement_iff {g : Grid} {row col num : Nat}
    (hr : row < 9) (hc : col < 9) :
    is_valid_placement g row col num = true ↔ validAt g row col num := by
  unfold is_valid_placement validAt
  simp only [Bool.and_eq_true, List.all_eq_true, List.mem_range, Bool.or_eq_true,
    beq_iff_eq, Bool.not_eq_true', beq_eq_false_iff_ne]
  constructor
  · rintro ⟨h1, h2, h3⟩
    refine ⟨fun x hx hxr => ?_, fun y hy hyc => ?_, fun x y hx hy hbx hby hne => ?_⟩
    · rcases h1 x hx with h | h
      · exact absurd h hxr
      · exact h
    · rcases h2 y hy with h | h
      · exact absurd h hyc
      · exact h
    · have hdx : x = row / 3 * 3 + (x % 3) := by omega
      have hdy : y = col / 3 * 3 + (y % 3) := by omega
      rcases h3 (x % 3) (by omega) (y % 3) (by omega) with h | h
      · exfalso
        apply hne
        constructor <;> omega
      · rw [hdx, hdy]
        exact h
  · rintro ⟨h1, h2, h3⟩
    refine ⟨fun x hx => ?_, fun y hy => ?_, fun dx hdx dy hdy => ?_⟩
    · by_cases hxr : x = row
      · exact Or.inl hxr
      · exact Or.inr (h1 x hx hxr)
    · by_cases hyc : y = col
      · exact Or.inl hyc
      · exact Or.inr (h2 y hy hyc)
    · by_cases he : row / 3 * 3 + dx = row ∧ col / 3 * 3 + dy = col
      · simp [he.1, he.2]
      · refine Or.inr (h3 _ _ (by omega) (by omega) (by omega) (by omega) he)

theorem not_validAt_iff_conflictsAt {g : Grid} {row col num : Nat}
    (hr : row < 9) (hc : col < 9) :
    ¬ validAt g row col num ↔ conflictsAt g row col num := by
  unfold validAt conflictsAt
  constructor
  · intro h
    by_contra hconf
    apply h
    exact ⟨fun x hx hxr hval =>
        hconf ⟨x, col, hx, hc, by simp [hxr], Or.inr (Or.inl rfl), hval⟩,
      fun y hy hyc hval =>
        hconf ⟨row, y, hr, hy, by simp [hyc], Or.inl rfl, hval⟩,
      fun x y hx hy hbx hby hne hval =>
        hconf ⟨x, y, hx, hy, hne, Or.inr (Or.inr ⟨hbx, hby⟩), hval⟩⟩
  · rintro ⟨x, y, hx, hy, hne, hreg, hval⟩ ⟨h1, h2, h3⟩
    rcases hreg with hxr | hyc | hbox
    · subst hxr
      by_cases hyc : y = col
      · exact hne ⟨rfl, hyc⟩
      · exact h2 y hy hyc hval
    · subst hyc
      by_cases hxr : x = row
      · exact hne ⟨hxr, rfl⟩
      · exact h1 x hx hxr hval
    · exact h3 x y hx hy hbox.1 hbox.2 hne hval

/-- Embedding of is_grid_valid (solver.c:236): every filled cell is checked
for a duplicate in its row, then its column, then its 3x3 box, skipping the
cell itself in each scan. -/
def is_grid_valid (g : Grid) : Bool :=
  (List.range 9).all fun x =>
    (List.range 9).all fun y =>
      if g x y = 0 then true
      else
        ((List.range 9).all fun ci => ci == y || !(g x ci == g x y)) &&
        (((List.range 9).all fun ri => ri == x || !(g ri y == g x y)) &&
         ((List.range 3).all fun dx =>
           (List.range 3).all fun dy =>
             (x / 3 * 3 + dx == x && y / 3 * 3 + dy == y) ||
             !(g (x / 3 * 3 + dx) (y / 3 * 3 + dy) == g x y)))

/-- Embedding of is_grid_complete (solver.c:294): no cell is 0. -/
def is_grid_complete (g : Grid) : Bool :=
  (List.range 9).all fun row =>
    (List.range 9).all fun col => !(g row col == 0)

/-- All cells of the playing area are filled. -/
def isComplete (g : Grid) : Prop := ∀ r, r < 9 → ∀ c, c < 9 → g r c ≠ 0

theorem is_grid_complete_iff (g : Grid) :
    is_grid_complete g = true ↔ isComplete g := by
  unfold is_grid_complete isComplete
  simp [List.all_eq_true, List.mem_range]

theorem find_empty_cell_none_iff (g : Grid) :
    find_empty_cell g = none ↔ isComplete g := find_empty_cell_none g

/-- The Sudoku validity invariant: distinct cells sharing a row, column, or
box never hold the same nonzero value. -/
def validG (g : Grid) : Prop :=
  ∀ r1 c1 r2 c2, r1 < 9 → c1 < 9 → r2 < 9 → c2 < 9 →
    ¬(r1 = r2 ∧ c1 = c2) →
    (r1 = r2 ∨ c1 = c2 ∨ (r1 / 3 = r2 / 3 ∧ c1 / 3 = c2 / 3)) →
    g r1 c1 ≠ 0 → g r1 c1 = g r2 c2 → False

theorem validG_iff_pointwise (g : Grid) :
    validG g ↔ ∀ r c, r < 9 → c < 9 → g r c ≠ 0 → validAt g r c (g r c) := by
  constructor
  · intro hv r c hr hc hz
    refine ⟨fun x hx hxr hval => ?_, fun y hy hyc hval => ?_,
      fun x y hx hy hbx hby hne hval => ?_⟩
    · exact hv x c r c hx hc hr hc (by simp [hxr]) (Or.inr (Or.inl rfl))
        (by rw [hval]; exact hz) hval
    · exact hv r y r c hr hy hr hc (by simp [hyc]) (Or.inl rfl)
        (by rw [hval]; exact hz) hval
    · exact hv x y r c hx hy hr hc hne (Or.inr (Or.inr ⟨hbx, hby⟩))
        (by rw [hval]; exact hz) hval
  · intro hp r1 c1 r2 c2 hr1 hc1 hr2 hc2 hne hreg hz heq
    have := hp r1 c1 hr1 hc1 hz
    obtain ⟨h1, h2, h3⟩ := this
    rcases hreg with hxr | hyc | hbox
    · subst hxr
      by_cases hyc : c2 = c1
      · exact hne ⟨rfl, hyc.symm⟩
      · exact h2 c2 hc2 (fun h => hyc h) heq.symm
    · subst hyc
      by_cases hxr : r2 = r1
      · exact hne ⟨hxr.symm, rfl⟩
      · exact h1 r2 hr2 (fun h => hxr h) heq.symm
    · exact h3 r2 c2 hr2 hc2 hbox.1.symm hbox.2.symm
        (fun h => hne ⟨h.1.symm, h.2.symm⟩) heq.symm

/-- Grid s agrees with g on every filled cell of g. -/
def gridExtends (g s : Grid) : Prop :=
  ∀ r c, r < 9 → c < 9 → g r c ≠ 0 → s r c = g r c

/-- Grid s is a (valid, digit-filled) completion of g: it extends g, every
cell holds a digit 1..9, and the Sudoku validity invariant holds. -/
def isCompletion (g s : Grid) : Prop :=
  gridExtends g s ∧ (∀ r c, r < 9 → c < 9 → 1 ≤ s r c ∧ s r c ≤ 9) ∧ validG s

theorem gridExtends_refl (g : Grid) : gridExtends g g := fun _ _ _ _ _ => rfl

theorem gridExtends_setCell {g s : Grid} {r c v : Nat}
    (h : gridExtends g s) (hz : g r c = 0) (hv : s r c = v) :
    gridExtends (setCell g r c v) s := by
  intro i j hi hj hnz
  by_cases hij : i = r ∧ j = c
  · obtain ⟨hir, hjc⟩ := hij; subst hir; subst hjc
    rw [setCell_at]
    exact hv
  · rw [setCell_ne g v hij] at hnz ⊢
    exact h i j hi hj hnz

theorem isCompletion_setCell {g s : Grid} {r c : Nat}
    (h : isCompletion g s) (hz : g r c = 0) :
    isCompletion (setCell g r c (s r c)) s :=
  ⟨gridExtends_setCell h.1 hz rfl, h.2.1, h.2.2⟩

/-- A completion of a complete grid agrees with it on the playing area. -/
theorem completion_of_complete {g s : Grid} (hg : isComplete g)
    (hs : isCompletion g s) : gridEq s g :=
  fun r hr c hc => hs.1 r c hr hc (hg r hr c hc)

theorem validG_of_gridEq {g1 g2 : Grid} (he : gridEq g1 g2) (h : validG g2) :
    validG g1 := by
  intro r1 c1 r2 c2 hr1 hc1 hr2 hc2 hne hreg hz heq
  rw [he r1 hr1 c1 hc1] at hz heq
  rw [he r2 hr2 c2 hc2] at heq
  exact h r1 c1 r2 c2 hr1 hc1 hr2 hc2 hne hreg hz heq

/-- A subgrid of a valid grid is valid: the generated puzzle inherits
validity from the stored solution. -/
theorem validG_of_extends {g s : Grid} (hext : gridExtends g s)
    (hs : validG s) : validG g := by
  intro r1 c1 r2 c2 hr1 hc1 hr2 hc2 hne hreg hz heq
  have h1 := hext r1 c1 hr1 hc1 hz
  have h2 := hext r2 c2 hr2 hc2 (by rw [← heq]; exact hz)
  exact hs r1 c1 r2 c2 hr1 hc1 hr2 hc2 hne hreg (by rw [h1]; exact hz)
    (by rw [h1, h2]; exact heq)

/-- The value a completion assigns to an empty cell is a valid placement in
the current grid: key step for solver and oracle completeness. -/
theorem completion_validAt {g s : Grid} {r c : Nat} (hs : isCompletion g s)
    (hr : r < 9) (hc : c < 9) (hz : g r c = 0) : validAt g r c (s r c) := by
  obtain ⟨hext, hdig, hval⟩ := hs
  have hnz : s r c ≠ 0 := by
    have := (hdig r c hr hc).1; omega
  refine ⟨fun x hx hxr hval2 => ?_, fun y hy hyc hval2 => ?_,
    fun x y hx hy hbx hby hne hval2 => ?_⟩
  · have hsx : s x c = g x c := hext x c hx hc (by rw [hval2, ← hval2]; omega)
    exact hval x c r c hx hc hr hc (by simp [hxr]) (Or.inr (Or.inl rfl))
      (by rw [hsx, hval2]; exact hnz) (by rw [hsx, hval2])
  · have hsy : s r y = g r y := hext r y hr hy (by rw [hval2]; omega)
    exact hval r y r c hr hy hr hc (by simp [hyc]) (Or.inl rfl)
      (by rw [hsy, hval2]; exact hnz) (by rw [hsy, hval2])
  · have hsxy : s x y = g x y := hext x y hx hy (by rw [hval2]; omega)
    exact hval x y r c hx hy hr hc hne (Or.inr (Or.inr ⟨hbx, hby⟩))
      (by rw [hsxy, hval2]; exact hnz) (by rw [hsxy, hval2])

/-- Placing a valid value in an empty cell of a valid grid keeps it valid. -/
theorem validG_setCell {g : Grid} {r c v : Nat} (hg : validG g)
    (hr : r < 9) (hc : c < 9) (hz : g r c = 0) (hv : validAt g r c v) :
    validG (setCell g r c v) := by
  intro r1 c1 r2 c2 hr1 hc1 hr2 hc2 hne hreg hz1 heq
  by_cases h1 : r1 = r ∧ c1 = c
  · obtain ⟨e1, e2⟩ := h1; subst e1; subst e2
    have h2 : ¬(r2 = r1 ∧ c2 = c1) := fun h => hne ⟨h.1.symm, h.2.symm⟩
    rw [setCell_at] at hz1 heq
    rw [setCell_ne g v h2] at heq
    obtain ⟨hA, hB, hC⟩ := hv
    rcases hreg with e | e | e
    · exact hB c2 hc2 (fun h => hne ⟨e, h.symm⟩) (by rw [← e] at heq; exact heq.symm)
    · exact hA r2 hr2 (fun h => hne ⟨h.symm, e⟩) (by rw [← e] at heq; exact heq.symm)

    · exact hC r2 c2 hr2 hc2 e.1.symm e.2.symm h2 heq.symm
  · rw [setCell_ne g v h1] at hz1 heq
    by_cases h2 : r2 = r ∧ c2 = c
    · obtain ⟨e1, e2⟩ := h2; subst e1; subst e2
      rw [setCell_at] at heq
      obtain ⟨hA, hB, hC⟩ := hv
      rcases hreg with e | e | e
      · subst e
        exact hB c1 hc1 (fun h => h1 ⟨rfl, h⟩) heq
      · subst e
        exact hA r1 hr1 (fun h => h1 ⟨h, rfl⟩) heq
      · exact hC r1 c1 hr1 hc1 e.1 e.2 h1 heq
    · rw [setCell_ne g v h2] at heq
      exact hg r1 c1 r2 c2 hr1 hc1 hr2 hc2 hne hreg hz1 heq

/-- Cells of the playing area currently empty. -/
def emptyCells (g : Grid) : Finset (Nat × Nat) :=
  (Finset.range 9 ×ˢ Finset.range 9).filter fun p => g p.1 p.2 = 0

/-- Number of empty cells, the termination measure of all the backtracking
recursions (the C call depth is bounded by it). -/
def numEmpty (g : Grid) : Nat := (emptyCells g).card

theorem numEmpty_le_81 (g : Grid) : numEmpty g ≤ 81 := by
  have h := Finset.card_filter_le (Finset.range 9 ×ˢ Finset.range 9)
    (fun p => g p.1 p.2 = 0)
  simpa [numEmpty, emptyCells] using h

theorem numEmpty_setCell_lt {g : Grid} {r c v : Nat} (hr : r < 9) (hc : c < 9)
    (hz : g r c = 0) (hv : v ≠ 0) : numEmpty (setCell g r c v) < numEmpty g := by
  apply Finset.card_lt_card
  rw [Finset.ssubset_iff_of_subset]
  · refine ⟨(r, c), ?_, ?_⟩
    · simp [emptyCells, Finset.mem_filter, Finset.mem_product, hr, hc, hz]
    · simp [emptyCells, Finset.mem_filter, setCell_at, hv]
  · intro p hp
    simp only [emptyCells, Finset.mem_filter, Finset.mem_product,
      Finset.mem_range] at hp ⊢
    refine ⟨hp.1, ?_⟩
    have h2 := hp.2
    by_cases hpc : p.1 = r ∧ p.2 = c
    · rw [hpc.1, hpc.2, setCell_at] at h2
      exact absurd h2 hv
    · rw [setCell_ne g v hpc] at h2
      exact h2

theorem numEmpty_zero_complete {g : Grid} (h : numEmpty g = 0) : isComplete g := by
  intro r hr c hc hz
  have : (r, c) ∈ emptyCells g := by
    simp [emptyCells, Finset.mem_filter, Finset.mem_product, hr, hc, hz]
  rw [Finset.card_eq_zero.1 h] at this
  simp at this

/-- The ascending candidate list 1..9 (the C loops run guess = i + 1 for
i = 0..8). -/
def digits : List Nat := (List.range 9).map fun i => i + 1

theorem mem_digits {v : Nat} : v ∈ digits ↔ 1 ≤ v ∧ v ≤ 9 := by
  simp only [digits, List.mem_map, List.mem_range]
  constructor
  · rintro ⟨i, hi, rfl⟩; omega
  · intro h; exact ⟨v - 1, by omega, by omega⟩

/-- Shared shape of the candidate loops of solve_grid (solver.c:106),
count_solutions_helper (solver.c:64) and generate_complete_grid
(generator.c:67): try each guess, on a valid placement write it and run the
recursive search rec; a success result is returned as is (for the oracle,
the early-termination signal, which leaves the grid unreset exactly as the
C code does), and on failure the cell is reset to 0 and the next candidate
is tried.  The state component sigma threads the extra data of each variant
(nothing for the solver, the solution counter for the oracle, the position
in the random stream for the generator). -/
def searchCands {σ : Type} (rec : Grid → σ → Bool × Grid × σ) (r c : Nat) :
    Grid → σ → List Nat → Bool × Grid × σ
  | g, st, [] => (false, g, st)
  | g, st, guess :: rest =>
    if is_valid_placement g r c guess then
      match rec (setCell g r c guess) st with
      | (true, g2, st2) => (true, g2, st2)
      | (false, g2, st2) => searchCands rec r c (setCell g2 r c 0) st2 rest
    else searchCands rec r c g st rest

/-- Fuel-indexed embedding of solve_grid (solver.c:95); the fuel only pads
the recursion depth, which is bounded by the number of empty cells. -/
def solveF : Nat → Grid → Bool × Grid × Unit
  | 0, g =>
    match find_empty_cell g with
    | none => (true, g, ())
    | some _ => (false, g, ())
  | fuel + 1, g =>
    match find_empty_cell g with
    | none => (true, g, ())
    | some (r, c) => searchCands (fun g2 _ => solveF fuel g2) r c g () digits

/-- Embedding of solve_grid (solver.c:95): returns the C return value and
the final state of the caller's grid argument. -/
def solve_grid (g : Grid) : Bool × Grid :=
  ((solveF 81 g).1, (solveF 81 g).2.1)

/-- Completion of a full assignment in count_solutions_helper
(solver.c:50): the counter is incremented and the early-termination signal
is raised as soon as it reaches 2. -/
def leafCount (g : Grid) (counter : Nat) : Bool × Grid × Nat :=
  if 2 ≤ counter + 1 then (true, g, counter + 1) else (false, g, counter + 1)

/-- Fuel-indexed embedding of count_solutions_helper (solver.c:45); result
is (early-termination signal, final grid state, solution counter). -/
def countF : Nat → Grid → Nat → Bool × Grid × Nat
  | 0, g, counter =>
    match find_empty_cell g with
    | none => leafCount g counter
    | some _ => (false, g, counter)
  | fuel + 1, g, counter =>
    match find_empty_cell g with
    | none => leafCount g counter
    | some (r, c) => searchCands (countF fuel) r c g counter digits

/-- Embedding of count_solutions (solver.c:219): the returned count and the
final state of the caller's grid, which the helper works on directly. -/
def count_solutions (g : Grid) : Nat × Grid :=
  ((countF 81 g 0).2.2, (countF 81 g 0).2.1)

/-- Embedding of has_unique_solution (solver.c:185): the helper runs on a
private copy grid_copy (solver.c:190), so only the count is observable. -/
def has_unique_solution (g : Grid) : Bool :=
  decide ((countF 81 g 0).2.2 = 1)

/-- Caller-visible state of has_unique_solution: result together with the
grid buffer of the caller, which the copy at solver.c:190 leaves untouched. -/
def has_unique_solution_state (g : Grid) : Bool × Grid :=
  (has_unique_solution g, g)

/-- Counter bounds of the oracle: the counter never decreases, the signal
is raised exactly on reaching 2, and without the signal it stays below 2. -/
def countOk (cnt : Nat) (t : Bool × Grid × Nat) : Prop :=
  cnt ≤ t.2.2 ∧ (t.1 = true → t.2.2 = 2) ∧ (t.1 = false → t.2.2 ≤ 1)

theorem searchCands_restore {σ : Type} (rec : Grid → σ → Bool × Grid × σ)
    (hrec : ∀ g st, (rec g st).1 = false → (rec g st).2.1 = g) (r c : Nat) :
    ∀ (l : List Nat) (g : Grid) (st : σ), g r c = 0 →
      (searchCands rec r c g st l).1 = false →
      (searchCands rec r c g st l).2.1 = g := by
  intro l
  induction l with
  | nil => intro g st hz h; simp [searchCands]
  | cons guess rest ih =>
    intro g st hz h
    by_cases hv : is_valid_placement g r c guess = true
    · rcases ht : rec (setCell g r c guess) st with ⟨b, g2, st2⟩
      cases b
      · have hg2 : g2 = setCell g r c guess := by
          have hrr := hrec (setCell g r c guess) st
          rw [ht] at hrr
          exact hrr rfl
        have hred : searchCands rec r c g st (guess :: rest) =
            searchCands rec r c (setCell g2 r c 0) st2 rest := by
          simp [searchCands, hv, ht]
        rw [hred, hg2, setCell_cancel g guess hz] at h ⊢
        exact ih g st2 hz h
      · have hred : searchCands rec r c g st (guess :: rest) = (true, g2, st2) := by
          simp [searchCands, hv, ht]
        rw [hred] at h
        simp at h
    · have hred : searchCands rec r c g st (guess :: rest) =
          searchCands rec r c g st rest := by
        simp [searchCands, hv]
      rw [hred] at h ⊢
      exact ih g st hz h

theorem solveF_none {fuel : Nat} {g : Grid} (hf : find_empty_cell g = none) :
    solveF fuel g = (true, g, ()) := by
  cases fuel <;> unfold solveF <;> rw [hf]

theorem solveF_zero_some {g : Grid} {r c : Nat}
    (hf : find_empty_cell g = some (r, c)) : solveF 0 g = (false, g, ()) := by
  unfold solveF; rw [hf]

theorem solveF_succ_some {fuel : Nat} {g : Grid} {r c : Nat}
    (hf : find_empty_cell g = some (r, c)) :
    solveF (fuel + 1) g =
      searchCands (fun g2 _ => solveF fuel g2) r c g () digits := by
  conv_lhs => unfold solveF
  rw [hf]

theorem countF_none {fuel : Nat} {g : Grid} {cnt : Nat}
    (hf : find_empty_cell g = none) : countF fuel g cnt = leafCount g cnt := by
  cases fuel <;> unfold countF <;> rw [hf]

theorem countF_zero_some {g : Grid} {cnt r c : Nat}
    (hf : find_empty_cell g = some (r, c)) : countF 0 g cnt = (false, g, cnt) := by
  unfold countF; rw [hf]

theorem countF_succ_some {fuel : Nat} {g : Grid} {cnt r c : Nat}
    (hf : find_empty_cell g = some (r, c)) :
    countF (fuel + 1) g cnt = searchCands (countF fuel) r c g cnt digits := by
  unfold countF; rw [hf]

theorem leafCount_countOk {g : Grid} {cnt : Nat} (hcnt : cnt ≤ 1) :
    countOk cnt (leafCount g cnt) := by
  unfold countOk leafCount
  by_cases h2 : 2 ≤ cnt + 1
  · rw [if_pos h2]
    exact ⟨show cnt ≤ cnt + 1 by omega, fun _ => show cnt + 1 = 2 by omega,
      fun hh => absurd hh (by simp)⟩
  · rw [if_neg h2]
    exact ⟨show cnt ≤ cnt + 1 by omega, fun hh => absurd hh (by simp),
      fun _ => show cnt + 1 ≤ 1 by omega⟩

theorem solveF_restore : ∀ (fuel : Nat) (g : Grid),
    (solveF fuel g).1 = false → (solveF fuel g).2.1 = g := by
  intro fuel
  induction fuel with
  | zero =>
    intro g h
    cases hf : find_empty_cell g with
    | none => rw [solveF_none hf] at h; simp at h
    | some p =>
      obtain ⟨r, c⟩ := p
      rw [solveF_zero_some hf]
  | succ fuel ih =>
    intro g h
    cases hf : find_empty_cell g with
    | none => rw [solveF_none hf] at h; simp at h
    | some p =>
      obtain ⟨r, c⟩ := p
      rw [solveF_succ_some hf] at h ⊢
      exact searchCands_restore _ (fun g2 st h2 => ih g2 h2) r c digits g ()
        (find_empty_cell_some hf).2.2 h

theorem countF_restore : ∀ (fuel : Nat) (g : Grid) (cnt : Nat),
    (countF fuel g cnt).1 = false → (countF fuel g cnt).2.1 = g := by
  intro fuel
  induction fuel with
  | zero =>
    intro g cnt h
    cases hf : find_empty_cell g with
    | none =>
      rw [countF_none hf]
      unfold leafCount
      split <;> rfl
    | some p =>
      obtain ⟨r, c⟩ := p
      rw [countF_zero_some hf]
  | succ fuel ih =>
    intro g cnt h
    cases hf : find_empty_cell g with
    | none =>
      rw [countF_none hf]
      unfold leafCount
      split <;> rfl
    | some p =>
      obtain ⟨r, c⟩ := p
      rw [countF_succ_some hf] at h ⊢
      exact searchCands_restore _ (fun g2 st h2 => ih g2 st h2) r c digits g cnt
        (find_empty_cell_some hf).2.2 h

theorem countLoop_basic (rec : Grid → Nat → Bool × Grid × Nat)
    (hrec : ∀ g cnt, cnt ≤ 1 → countOk cnt (rec g cnt))
    (hrecR : ∀ g cnt, (rec g cnt).1 = false → (rec g cnt).2.1 = g)
    (r c : Nat) :
    ∀ (l : List Nat) (g : Grid) (cnt : Nat), g r c = 0 → cnt ≤ 1 →
      countOk cnt (searchCands rec r c g cnt l) := by
  intro l
  induction l with
  | nil =>
    intro g cnt hz hcnt
    exact ⟨le_refl _, by intro h; simp [searchCands] at h, fun _ => hcnt⟩
  | cons guess rest ih =>
    intro g cnt hz hcnt
    by_cases hv : is_valid_placement g r c guess = true
    · rcases ht : rec (setCell g r c guess) cnt with ⟨b, g2, c2⟩
      have hok := hrec (setCell g r c guess) cnt hcnt
      rw [ht] at hok
      cases b
      · have hg2 : g2 = setCell g r c guess := by
          have hrr := hrecR (setCell g r c guess) cnt
          rw [ht] at hrr
          exact hrr rfl
        have hred : searchCands rec r c g cnt (guess :: rest) =
            searchCands rec r c (setCell g2 r c 0) c2 rest := by
          simp [searchCands, hv, ht]
        rw [hred, hg2, setCell_cancel g guess hz]
        have hc2 : c2 ≤ 1 := hok.2.2 rfl
        have hle : cnt ≤ c2 := hok.1
        have hrest := ih g c2 hz hc2
        exact ⟨le_trans hle hrest.1, hrest.2.1, hrest.2.2⟩
      · have hred : searchCands rec r c g cnt (guess :: rest) = (true, g2, c2) := by
          simp [searchCands, hv, ht]
        rw [hred]
        exact ⟨hok.1, fun _ => hok.2.1 rfl, by intro h; simp at h⟩
    · have hred : searchCands rec r c g cnt (guess :: rest) =
          searchCands rec r c g cnt rest := by
        simp [searchCands, hv]
      rw [hred]
      exact ih g cnt hz hcnt

theorem countF_basic : ∀ (fuel : Nat) (g : Grid) (cnt : Nat), cnt ≤ 1 →
    countOk cnt (countF fuel g cnt) := by
  intro fuel
  induction fuel with
  | zero =>
    intro g cnt hcnt
    cases hf : find_empty_cell g with
    | none =>
      rw [countF_none hf]
      exact leafCount_countOk hcnt
    | some p =>
      obtain ⟨r, c⟩ := p
      rw [countF_zero_some hf]
      exact ⟨le_refl _, by intro h; simp at h, fun _ => hcnt⟩
  | succ fuel ih =>
    intro g cnt hcnt
    cases hf : find_empty_cell g with
    | none =>
      rw [countF_none hf]
      exact leafCount_countOk hcnt
    | some p =>
      obtain ⟨r, c⟩ := p
      rw [countF_succ_some hf]
      exact countLoop_basic _ (fun g2 c2 h2 => ih g2 c2 h2)
        (fun g2 c2 h2 => countF_restore fuel g2 c2 h2) r c digits g cnt
        (find_empty_cell_some hf).2.2 hcnt

/-- Result of a successful search from g: the grid is extended, the new
cells hold digits, everything is filled, and validity is preserved. -/
def solvedFrom (g t : Grid) : Prop :=
  gridExtends g t ∧
  (∀ i j, i < 9 → j < 9 → t i j = g i j ∨ (1 ≤ t i j ∧ t i j ≤ 9)) ∧
  isComplete t ∧ (validG g → validG t)

theorem solvedFrom_self {g : Grid} (h : isComplete g) : solvedFrom g g :=
  ⟨gridExtends_refl g, fun i j _ _ => Or.inl rfl, h, fun hv => hv⟩

theorem solvedFrom_lift {g t : Grid} {r c v : Nat} (hr : r < 9) (hc : c < 9)
    (hz : g r c = 0) (hv1 : 1 ≤ v) (hv9 : v ≤ 9) (hval : validAt g r c v)
    (h : solvedFrom (setCell g r c v) t) : solvedFrom g t := by
  obtain ⟨hext, hdig, hcomp, hvalid⟩ := h
  refine ⟨?_, ?_, hcomp, ?_⟩
  · intro i j hi hj hnz
    have h2 : setCell g r c v i j ≠ 0 := by
      by_cases hij : i = r ∧ j = c
      · obtain ⟨e1, e2⟩ := hij; subst e1; subst e2
        exact absurd hz hnz
      · rw [setCell_ne g v hij]; exact hnz
    have h3 := hext i j hi hj h2
    by_cases hij : i = r ∧ j = c
    · obtain ⟨e1, e2⟩ := hij; subst e1; subst e2
      exact absurd hz hnz
    · rw [setCell_ne g v hij] at h3; exact h3
  · intro i j hi hj
    rcases hdig i j hi hj with h4 | h4
    · by_cases hij : i = r ∧ j = c
      · obtain ⟨e1, e2⟩ := hij; subst e1; subst e2
        rw [setCell_at] at h4
        exact Or.inr ⟨by omega, by omega⟩
      · rw [setCell_ne g v hij] at h4
        exact Or.inl h4
    · exact Or.inr h4
  · intro hg
    exact hvalid (validG_setCell hg hr hc hz hval)

theorem searchLoop_sound {σ : Type} (rec : Grid → σ → Bool × Grid × σ)
    (hrecS : ∀ g st, (rec g st).1 = true → solvedFrom g (rec g st).2.1)
    (hrecR : ∀ g st, (rec g st).1 = false → (rec g st).2.1 = g)
    (r c : Nat) (hr : r < 9) (hc : c < 9) :
    ∀ (l : List Nat), (∀ v ∈ l, 1 ≤ v ∧ v ≤ 9) →
      ∀ (g : Grid) (st : σ), g r c = 0 →
      (searchCands rec r c g st l).1 = true →
      solvedFrom g (searchCands rec r c g st l).2.1 := by
  intro l
  induction l with
  | nil =>
    intro _ g st hz h
    simp [searchCands] at h
  | cons guess rest ih =>
    intro hdl g st hz h
    by_cases hv : is_valid_placement g r c guess = true
    · rcases ht : rec (setCell g r c guess) st with ⟨b, g2, st2⟩
      cases b
      · have hg2 : g2 = setCell g r c guess := by
          have hrr := hrecR (setCell g r c guess) st
          rw [ht] at hrr
          exact hrr rfl
        have hred : searchCands rec r c g st (guess :: rest) =
            searchCands rec r c (setCell g2 r c 0) st2 rest := by
          simp [searchCands, hv, ht]
        rw [hred, hg2, setCell_cancel g guess hz] at h ⊢
        exact ih (fun v hvm => hdl v (by simp [hvm])) g st2 hz h
      · have hred : searchCands rec r c g st (guess :: rest) = (true, g2, st2) := by
          simp [searchCands, hv, ht]
        rw [hred]
        have hsf := hrecS (setCell g r c guess) st
        rw [ht] at hsf
        have hdg := hdl guess (by simp)
        exact solvedFrom_lift hr hc hz hdg.1 hdg.2
          ((is_valid_placement_iff hr hc).1 hv) (hsf rfl)
    · have hred : searchCands rec r c g st (guess :: rest) =
          searchCands rec r c g st rest := by
        simp [searchCands, hv]
      rw [hred] at h ⊢
      exact ih (fun v hvm => hdl v (by simp [hvm])) g st hz h

theorem solveF_sound : ∀ (fuel : Nat) (g : Grid),
    (solveF fuel g).1 = true → solvedFrom g (solveF fuel g).2.1 := by
  intro fuel
  induction fuel with
  | zero =>
    intro g h
    cases hf : find_empty_cell g with
    | none =>
      rw [solveF_none hf]
      exact solvedFrom_self ((find_empty_cell_none_iff g).1 hf)
    | some p =>
      obtain ⟨r, c⟩ := p
      rw [solveF_zero_some hf] at h
      simp at h
  | succ fuel ih =>
    intro g h
    cases hf : find_empty_cell g with
    | none =>
      rw [solveF_none hf]
      exact solvedFrom_self ((find_empty_cell_none_iff g).1 hf)
    | some p =>
      obtain ⟨r, c⟩ := p
      obtain ⟨hr, hc, hz⟩ := find_empty_cell_some hf
      rw [solveF_succ_some hf] at h ⊢
      exact searchLoop_sound _ (fun g2 st h2 => ih g2 h2)
        (fun g2 st h2 => solveF_restore fuel g2 h2) r c hr hc digits
        (fun v hvm => mem_digits.1 hvm) g () hz h

theorem searchLoop_complete {σ : Type} (rec : Grid → σ → Bool × Grid × σ)
    (n : Nat)
    (hrecC : ∀ (g2 : Grid) (st : σ), numEmpty g2 < n →
      (∃ s, isCompletion g2 s) → (rec g2 st).1 = true)
    (hrecR : ∀ g2 st, (rec g2 st).1 = false → (rec g2 st).2.1 = g2)
    (r c : Nat) (hr : r < 9) (hc : c < 9) :
    ∀ (l : List Nat) (g : Grid) (st : σ) (s : Grid),
      isCompletion g s → g r c = 0 → numEmpty g ≤ n → s r c ∈ l →
      (searchCands rec r c g st l).1 = true := by
  intro l
  induction l with
  | nil =>
    intro g st s hcomp hz hn hmem
    simp at hmem
  | cons guess rest ih =>
    intro g st s hcomp hz hn hmem
    have hdig := hcomp.2.1 r c hr hc
    by_cases he : guess = s r c
    · subst he
      have hval : is_valid_placement g r c (s r c) = true :=
        (is_valid_placement_iff hr hc).2 (completion_validAt hcomp hr hc hz)
      have hlt : numEmpty (setCell g r c (s r c)) < n :=
        lt_of_lt_of_le (numEmpty_setCell_lt hr hc hz (by omega)) hn
      have hrec := hrecC (setCell g r c (s r c)) st hlt
        ⟨s, isCompletion_setCell hcomp hz⟩
      rcases ht : rec (setCell g r c (s r c)) st with ⟨b, g2, st2⟩
      rw [ht] at hrec
      cases b
      · simp at hrec
      · have hred : searchCands rec r c g st (s r c :: rest) = (true, g2, st2) := by
          simp [searchCands, hval, ht]
        rw [hred]
    · have hmem2 : s r c ∈ rest := by
        rcases List.mem_cons.1 hmem with h1 | h1
        · exact absurd h1.symm he
        · exact h1
      by_cases hv : is_valid_placement g r c guess = true
      · rcases ht : rec (setCell g r c guess) st with ⟨b, g2, st2⟩
        cases b
        · have hg2 : g2 = setCell g r c guess := by
            have hrr := hrecR (setCell g r c guess) st
            rw [ht] at hrr
            exact hrr rfl
          have hred : searchCands rec r c g st (guess :: rest) =
              searchCands rec r c (setCell g2 r c 0) st2 rest := by
            simp [searchCands, hv, ht]
          rw [hred, hg2, setCell_cancel g guess hz]
          exact ih g st2 s hcomp hz hn hmem2
        · have hred : searchCands rec r c g st (guess :: rest) = (true, g2, st2) := by
            simp [searchCands, hv, ht]
          rw [hred]
      · have hred : searchCands rec r c g st (guess :: rest) =
            searchCands rec r c g st rest := by
          simp [searchCands, hv]
        rw [hred]
        exact ih g st s hcomp hz hn hmem2

theorem solveF_complete : ∀ (fuel : Nat) (g : Grid), numEmpty g ≤ fuel →
    (∃ s, isCompletion g s) → (solveF fuel g).1 = true := by
  intro fuel
  induction fuel with
  | zero =>
    intro g hn hex
    have hcomp := numEmpty_zero_complete (Nat.le_zero.1 hn)
    rw [solveF_none ((find_empty_cell_none_iff g).2 hcomp)]
  | succ fuel ih =>
    intro g hn hex
    cases hf : find_empty_cell g with
    | none => rw [solveF_none hf]
    | some p =>
      obtain ⟨r, c⟩ := p
      obtain ⟨hr, hc, hz⟩ := find_empty_cell_some hf
      obtain ⟨s, hs⟩ := hex
      rw [solveF_succ_some hf]
      exact searchLoop_complete _ (fuel + 1)
        (fun g2 st hlt hex2 => ih g2 (by omega) hex2)
        (fun g2 st h2 => solveF_restore fuel g2 h2) r c hr hc digits g () s hs hz hn
        (mem_digits.2 (hs.2.1 r c hr hc))

theorem countLoop_P1 (rec : Grid → Nat → Bool × Grid × Nat) (n : Nat)
    (hrecB : ∀ g2 cnt, cnt ≤ 1 → countOk cnt (rec g2 cnt))
    (hrecR : ∀ g2 cnt, (rec g2 cnt).1 = false → (rec g2 cnt).2.1 = g2)
    (hrecP1 : ∀ g2 cnt, numEmpty g2 < n → cnt ≤ 1 → (∃ s, isCompletion g2 s) →
      (rec g2 cnt).1 = true ∨ cnt + 1 ≤ (rec g2 cnt).2.2)
    (r c : Nat) (hr : r < 9) (hc : c < 9) :
    ∀ (l : List Nat) (g : Grid) (cnt : Nat) (s : Grid),
      isCompletion g s → g r c = 0 → numEmpty g ≤ n → cnt ≤ 1 → s r c ∈ l →
      (searchCands rec r c g cnt l).1 = true ∨
        cnt + 1 ≤ (searchCands rec r c g cnt l).2.2 := by
  intro l
  induction l with
  | nil =>
    intro g cnt s hcomp hz hn hcnt hmem
    simp at hmem
  | cons guess rest ih =>
    intro g cnt s hcomp hz hn hcnt hmem
    by_cases he : guess = s r c
    · subst he
      have hval : is_valid_placement g r c (s r c) = true :=
        (is_valid_placement_iff hr hc).2 (completion_validAt hcomp hr hc hz)
      have hdig := hcomp.2.1 r c hr hc
      have hlt : numEmpty (setCell g r c (s r c)) < n :=
        lt_of_lt_of_le (numEmpty_setCell_lt hr hc hz (by omega)) hn
      have hp1 := hrecP1 (setCell g r c (s r c)) cnt hlt hcnt
        ⟨s, isCompletion_setCell hcomp hz⟩
      have hok := hrecB (setCell g r c (s r c)) cnt hcnt
      rcases ht : rec (setCell g r c (s r c)) cnt with ⟨b, g2, c2⟩
      rw [ht] at hp1 hok
      cases b
      · have hg2 : g2 = setCell g r c (s r c) := by
          have hrr := hrecR (setCell g r c (s r c)) cnt
          rw [ht] at hrr
          exact hrr rfl
        have hred : searchCands rec r c g cnt (s r c :: rest) =
            searchCands rec r c (setCell g2 r c 0) c2 rest := by
          simp [searchCands, hval, ht]
        rw [hred, hg2, setCell_cancel g (s r c) hz]
        have hc2 : cnt + 1 ≤ c2 := by
          rcases hp1 with h | h
          · simp at h
          · exact h
        have hc21 : c2 ≤ 1 := hok.2.2 rfl
        have hrest := countLoop_basic rec hrecB hrecR r c rest g c2 hz hc21
        exact Or.inr (le_trans hc2 hrest.1)
      · have hred : searchCands rec r c g cnt (s r c :: rest) = (true, g2, c2) := by
          simp [searchCands, hval, ht]
        rw [hred]
        exact Or.inl rfl
    · have hmem2 : s r c ∈ rest := by
        rcases List.mem_cons.1 hmem with h1 | h1
        · exact absurd h1.symm he
        · exact h1
      by_cases hv : is_valid_placement g r c guess = true
      · have hok := hrecB (setCell g r c guess) cnt hcnt
        rcases ht : rec (setCell g r c guess) cnt with ⟨b, g2, c2⟩
        rw [ht] at hok
        cases b
        · have hg2 : g2 = setCell g r c guess := by
            have hrr := hrecR (setCell g r c guess) cnt
            rw [ht] at hrr
            exact hrr rfl
          have hred : searchCands rec r c g cnt (guess :: rest) =
              searchCands rec r c (setCell g2 r c 0) c2 rest := by
            simp [searchCands, hv, ht]
          rw [hred, hg2, setCell_cancel g guess hz]
          have hc21 : c2 ≤ 1 := hok.2.2 rfl
          have hcc : cnt ≤ c2 := hok.1
          rcases ih g c2 s hcomp hz hn hc21 hmem2 with h | h
          · exact Or.inl h
          · exact Or.inr (le_trans (by omega : cnt + 1 ≤ c2 + 1) h)
        · have hred : searchCands rec r c g cnt (guess :: rest) = (true, g2, c2) := by
            simp [searchCands, hv, ht]
          rw [hred]
          exact Or.inl rfl
      · have hred : searchCands rec r c g cnt (guess :: rest) =
            searchCands rec r c g cnt rest := by
          simp [searchCands, hv]
        rw [hred]
        exact ih g cnt s hcomp hz hn hcnt hmem2

theorem countF_P1 : ∀ (fuel : Nat) (g : Grid) (cnt : Nat), numEmpty g ≤ fuel →
    cnt ≤ 1 → (∃ s, isCompletion g s) →
    (countF fuel g cnt).1 = true ∨ cnt + 1 ≤ (countF fuel g cnt).2.2 := by
  intro fuel
  induction fuel with
  | zero =>
    intro g cnt hn hcnt hex
    have hcomp := numEmpty_zero_complete (Nat.le_zero.1 hn)
    rw [countF_none ((find_empty_cell_none_iff g).2 hcomp)]
    unfold leafCount
    by_cases h2 : 2 ≤ cnt + 1
    · rw [if_pos h2]
      exact Or.inl rfl
    · rw [if_neg h2]
      exact Or.inr (le_refl _)
  | succ fuel ih =>
    intro g cnt hn hcnt hex
    cases hf : find_empty_cell g with
    | none =>
      rw [countF_none hf]
      unfold leafCount
      by_cases h2 : 2 ≤ cnt + 1
      · rw [if_pos h2]
        exact Or.inl rfl
      · rw [if_neg h2]
        exact Or.inr (le_refl _)
    | some p =>
      obtain ⟨r, c⟩ := p
      obtain ⟨hr, hc, hz⟩ := find_empty_cell_some hf
      obtain ⟨s, hs⟩ := hex
      rw [countF_succ_some hf]
      exact countLoop_P1 _ (fuel + 1) (fun g2 c2 h2 => countF_basic fuel g2 c2 h2)
        (fun g2 c2 h2 => countF_restore fuel g2 c2 h2)
        (fun g2 c2 hlt h1 hex2 => ih g2 c2 (by omega) h1 hex2) r c hr hc digits
        g cnt s hs hz hn hcnt (mem_digits.2 (hs.2.1 r c hr hc))

theorem countLoop_P2 (rec : Grid → Nat → Bool × Grid × Nat) (n : Nat)
    (hrecB : ∀ g2 cnt, cnt ≤ 1 → countOk cnt (rec g2 cnt))
    (hrecR : ∀ g2 cnt, (rec g2 cnt).1 = false → (rec g2 cnt).2.1 = g2)
    (hrecP1 : ∀ g2 cnt, numEmpty g2 < n → cnt ≤ 1 → (∃ s, isCompletion g2 s) →
      (rec g2 cnt).1 = true ∨ cnt + 1 ≤ (rec g2 cnt).2.2)
    (hrecP2 : ∀ g2 cnt, numEmpty g2 < n → cnt ≤ 1 →
      (∃ s1 s2, isCompletion g2 s1 ∧ isCompletion g2 s2 ∧ ¬ gridEq s1 s2) →
      (rec g2 cnt).1 = true)
    (r c : Nat) (hr : r < 9) (hc : c < 9) :
    ∀ (l : List Nat) (g : Grid) (cnt : Nat) (s1 s2 : Grid),
      isCompletion g s1 → isCompletion g s2 → ¬ gridEq s1 s2 →
      g r c = 0 → numEmpty g ≤ n → cnt ≤ 1 → s1 r c ∈ l → s2 r c ∈ l →
      (searchCands rec r c g cnt l).1 = true := by
  intro l
  induction l with
  | nil =>
    intro g cnt s1 s2 h1 h2 hne hz hn hcnt hm1 hm2
    simp at hm1
  | cons guess rest ih =>
    intro g cnt s1 s2 h1 h2 hne hz hn hcnt hm1 hm2
    have hd1 := h1.2.1 r c hr hc
    have hd2 := h2.2.1 r c hr hc
    by_cases he1 : guess = s1 r c
    · have hval : is_valid_placement g r c guess = true := by
        rw [he1]
        exact (is_valid_placement_iff hr hc).2 (completion_validAt h1 hr hc hz)
      have hlt : numEmpty (setCell g r c guess) < n :=
        lt_of_lt_of_le (numEmpty_setCell_lt hr hc hz (by omega)) hn
      by_cases he2 : guess = s2 r c
      · have hsig := hrecP2 (setCell g r c guess) cnt hlt hcnt
          ⟨s1, s2, by rw [he1]; exact isCompletion_setCell h1 hz,
            by rw [he2]; exact isCompletion_setCell h2 hz, hne⟩
        rcases ht : rec (setCell g r c guess) cnt with ⟨b, g2, c2⟩
        rw [ht] at hsig
        cases b
        · simp at hsig
        · have hred : searchCands rec r c g cnt (guess :: rest) = (true, g2, c2) := by
            simp [searchCands, hval, ht]
          rw [hred]
      · have hm2r : s2 r c ∈ rest := by
          rcases List.mem_cons.1 hm2 with hh | hh
          · exact absurd hh.symm he2
          · exact hh
        have hp1 := hrecP1 (setCell g r c guess) cnt hlt hcnt
          ⟨s1, by rw [he1]; exact isCompletion_setCell h1 hz⟩
        have hok := hrecB (setCell g r c guess) cnt hcnt
        rcases ht : rec (setCell g r c guess) cnt with ⟨b, g2, c2⟩
        rw [ht] at hp1 hok
        cases b
        · have hg2 : g2 = setCell g r c guess := by
            have hrr := hrecR (setCell g r c guess) cnt
            rw [ht] at hrr
            exact hrr rfl
          have hred : searchCands rec r c g cnt (guess :: rest) =
              searchCands rec r c (setCell g2 r c 0) c2 rest := by
            simp [searchCands, hval, ht]
          rw [hred, hg2, setCell_cancel g guess hz]
          have hc2 : cnt + 1 ≤ c2 := by
            rcases hp1 with hh | hh
            · simp at hh
            · exact hh
          have hc21 : c2 ≤ 1 := hok.2.2 rfl
          have hres := countLoop_P1 rec n hrecB hrecR hrecP1 r c hr hc rest
            g c2 s2 h2 hz hn hc21 hm2r
          rcases hres with hh | hh
          · exact hh
          · have hbasic := countLoop_basic rec hrecB hrecR r c rest g c2 hz hc21
            cases hsr : (searchCands rec r c g c2 rest).1
            · have := hbasic.2.2 hsr
              omega
            · rfl
        · have hred : searchCands rec r c g cnt (guess :: rest) = (true, g2, c2) := by
            simp [searchCands, hval, ht]
          rw [hred]
    · have hm1r : s1 r c ∈ rest := by
        rcases List.mem_cons.1 hm1 with hh | hh
        · exact absurd hh.symm he1
        · exact hh
      by_cases he2 : guess = s2 r c
      · have hval : is_valid_placement g r c guess = true := by
          rw [he2]
          exact (is_valid_placement_iff hr hc).2 (completion_validAt h2 hr hc hz)
        have hlt : numEmpty (setCell g r c guess) < n :=
          lt_of_lt_of_le (numEmpty_setCell_lt hr hc hz (by omega)) hn
        have hp1 := hrecP1 (setCell g r c guess) cnt hlt hcnt
          ⟨s2, by rw [he2]; exact isCompletion_setCell h2 hz⟩
        have hok := hrecB (setCell g r c guess) cnt hcnt
        rcases ht : rec (setCell g r c guess) cnt with ⟨b, g2, c2⟩
        rw [ht] at hp1 hok
        cases b
        · have hg2 : g2 = setCell g r c guess := by
            have hrr := hrecR (setCell g r c guess) cnt
            rw [ht] at hrr
            exact hrr rfl
          have hred : searchCands rec r c g cnt (guess :: rest) =
              searchCands rec r c (setCell g2 r c 0) c2 rest := by
            simp [searchCands, hval, ht]
          rw [hred, hg2, setCell_cancel g guess hz]
          have hc2 : cnt + 1 ≤ c2 := by
            rcases hp1 with hh | hh
            · simp at hh
            · exact hh
          have hc21 : c2 ≤ 1 := hok.2.2 rfl
          have hres := countLoop_P1 rec n hrecB hrecR hrecP1 r c hr hc rest
            g c2 s1 h1 hz hn hc21 hm1r
          rcases hres with hh | hh
          · exact hh
          · have hbasic := countLoop_basic rec hrecB hrecR r c rest g c2 hz hc21
            cases hsr : (searchCands rec r c g c2 rest).1
            · have := hbasic.2.2 hsr
              omega
            · rfl
        · have hred : searchCands rec r c g cnt (guess :: rest) = (true, g2, c2) := by
            simp [searchCands, hval, ht]
          rw [hred]
      · have hm2r : s2 r c ∈ rest := by
          rcases List.mem_cons.1 hm2 with hh | hh
          · exact absurd hh.symm he2
          · exact hh
        by_cases hv : is_valid_placement g r c guess = true
        · have hok := hrecB (setCell g r c guess) cnt hcnt
          rcases ht : rec (setCell g r c guess) cnt with ⟨b, g2, c2⟩
          rw [ht] at hok
          cases b
          · have hg2 : g2 = setCell g r c guess := by
              have hrr := hrecR (setCell g r c guess) cnt
              rw [ht] at hrr
              exact hrr rfl
            have hred : searchCands rec r c g cnt (guess :: rest) =
                searchCands rec r c (setCell g2 r c 0) c2 rest := by
              simp [searchCands, hv, ht]
            rw [hred, hg2, setCell_cancel g guess hz]
            have hc21 : c2 ≤ 1 := hok.2.2 rfl
            exact ih g c2 s1 s2 h1 h2 hne hz hn hc21 hm1r hm2r
          · have hred : searchCands rec r c g cnt (guess :: rest) = (true, g2, c2) := by
              simp [searchCands, hv, ht]
            rw [hred]
        · have hred : searchCands rec r c g cnt (guess :: rest) =
              searchCands rec r c g cnt rest := by
            simp [searchCands, hv]
          rw [hred]
          exact ih g cnt s1 s2 h1 h2 hne hz hn hcnt hm1r hm2r

theorem gridEq_trans_ne {s1 s2 g : Grid} (h1 : gridEq s1 g) (h2 : gridEq s2 g) :
    gridEq s1 s2 := by
  intro r hr c hc
  rw [h1 r hr c hc, h2 r hr c hc]

theorem countF_P2 : ∀ (fuel : Nat) (g : Grid) (cnt : Nat), numEmpty g ≤ fuel →
    cnt ≤ 1 →
    (∃ s1 s2, isCompletion g s1 ∧ isCompletion g s2 ∧ ¬ gridEq s1 s2) →
    (countF fuel g cnt).1 = true := by
  intro fuel
  induction fuel with
  | zero =>
    intro g cnt hn hcnt hex
    obtain ⟨s1, s2, h1, h2, hne⟩ := hex
    have hcomp := numEmpty_zero_complete (Nat.le_zero.1 hn)
    exact absurd (gridEq_trans_ne (completion_of_complete hcomp h1)
      (completion_of_complete hcomp h2)) hne
  | succ fuel ih =>
    intro g cnt hn hcnt hex
    obtain ⟨s1, s2, h1, h2, hne⟩ := hex
    cases hf : find_empty_cell g with
    | none =>
      have hcomp := (find_empty_cell_none_iff g).1 hf
      exact absurd (gridEq_trans_ne (completion_of_complete hcomp h1)
        (completion_of_complete hcomp h2)) hne
    | some p =>
      obtain ⟨r, c⟩ := p
      obtain ⟨hr, hc, hz⟩ := find_empty_cell_some hf
      rw [countF_succ_some hf]
      exact countLoop_P2 _ (fuel + 1) (fun g2 c2 hh => countF_basic fuel g2 c2 hh)
        (fun g2 c2 hh => countF_restore fuel g2 c2 hh)
        (fun g2 c2 hlt hh hex2 => countF_P1 fuel g2 c2 (by omega) hh hex2)
        (fun g2 c2 hlt hh hex2 => ih g2 c2 (by omega) hh hex2)
        r c hr hc digits g cnt s1 s2 h1 h2 hne hz hn hcnt
        (mem_digits.2 (h1.2.1 r c hr hc)) (mem_digits.2 (h2.2.1 r c hr hc))

/-- Core oracle correctness used by the generator claims: a counter value of
1 from a full run of the helper certifies that the grid has at most one
completion. -/
theorem oracle_unique {g : Grid} (h : (countF 81 g 0).2.2 = 1) :
    ∀ s1 s2, isCompletion g s1 → isCompletion g s2 → gridEq s1 s2 := by
  intro s1 s2 h1 h2
  by_contra hne
  have hsig := countF_P2 81 g 0 (numEmpty_le_81 g) (by omega) ⟨s1, s2, h1, h2, hne⟩
  have hok := countF_basic 81 g 0 (by omega)
  have h2eq := hok.2.1 hsig
  omega

/-- The local candidate array int numbers[9] = {1,...,9} of
generate_complete_grid (generator.c:57), as a function array. -/
def numbers0 : Nat → Nat := fun i => i + 1

/-- Embedding of swap (generator.c:14) acting on a function array. -/
def swapF (f : Nat → Nat) (a b : Nat) : Nat → Nat :=
  fun i => if i = a then f b else if i = b then f a else f i

/-- Embedding of the Fisher-Yates loop of shuffle_array (generator.c:29):
the first argument counts the current index i down from 8 to 1; each step
draws j = rand() % (i + 1) from the stream s at position k and swaps. -/
def shuffleF (s : Nat → Nat) : Nat → (Nat → Nat) → Nat → (Nat → Nat) × Nat
  | 0, arr, k => (arr, k)
  | i + 1, arr, k => shuffleF s i (swapF arr (i + 1) (s k % (i + 2))) (k + 1)

/-- Embedding of shuffle_array (generator.c:29) for the 9-element array. -/
def shuffle_array (s : Nat → Nat) (arr : Nat → Nat) (k : Nat) :
    (Nat → Nat) × Nat := shuffleF s 8 arr k

theorem swapF_mem {f : Nat → Nat} {a b : Nat} (ha : a < 9) (hb : b < 9)
    (v : Nat) : (∃ i, i < 9 ∧ swapF f a b i = v) ↔ ∃ i, i < 9 ∧ f i = v := by
  constructor
  · rintro ⟨i, hi, hv⟩
    unfold swapF at hv
    by_cases hia : i = a
    · rw [if_pos hia] at hv
      exact ⟨b, hb, hv⟩
    · rw [if_neg hia] at hv
      by_cases hib : i = b
      · rw [if_pos hib] at hv
        exact ⟨a, ha, hv⟩
      · rw [if_neg hib] at hv
        exact ⟨i, hi, hv⟩
  · rintro ⟨i, hi, hv⟩
    by_cases hia : i = a
    · refine ⟨b, hb, ?_⟩
      unfold swapF
      by_cases hba : b = a
      · rw [if_pos hba, hba, ← hia]; exact hv
      · rw [if_neg hba, if_pos rfl, ← hia]; exact hv
    · by_cases hib : i = b
      · refine ⟨a, ha, ?_⟩
        unfold swapF
        rw [if_pos rfl, ← hib]; exact hv
      · exact ⟨i, hi, by unfold swapF; rw [if_neg hia, if_neg hib]; exact hv⟩

theorem shuffleF_mem (s : Nat → Nat) : ∀ (i : Nat) (arr : Nat → Nat) (k : Nat),
    i < 9 → ∀ v, (∃ j, j < 9 ∧ (shuffleF s i arr k).1 j = v) ↔
      ∃ j, j < 9 ∧ arr j = v := by
  intro i
  induction i with
  | zero => intro arr k _ v; rfl
  | succ i ih =>
    intro arr k hi v
    unfold shuffleF
    rw [ih _ (k + 1) (by omega) v]
    exact swapF_mem hi (Nat.lt_of_lt_of_le (Nat.mod_lt _ (by omega)) (by omega)) v

theorem shuffle_array_mem (s : Nat → Nat) (k : Nat) (v : Nat) :
    (∃ j, j < 9 ∧ (shuffle_array s numbers0 k).1 j = v) ↔ 1 ≤ v ∧ v ≤ 9 := by
  rw [shuffle_array, shuffleF_mem s 8 numbers0 k (by omega) v]
  unfold numbers0
  constructor
  · rintro ⟨j, hj, rfl⟩; omega
  · intro h; exact ⟨v - 1, by omega, by omega⟩

/-- Candidate list read off a function array in index order, the order the
loop at generator.c:67 tries guesses. -/
def candList (arr : Nat → Nat) : List Nat := (List.range 9).map arr

theorem mem_candList {arr : Nat → Nat} {v : Nat} :
    v ∈ candList arr ↔ ∃ j, j < 9 ∧ arr j = v := by
  simp [candList, List.mem_map, List.mem_range]

/-- Fuel-indexed embedding of generate_complete_grid (generator.c:52): each
invocation first shuffles a fresh 1..9 array (consuming eight draws from the
random stream, even when the grid turns out to be complete), then either
succeeds on a full grid or tries the shuffled candidates at the first empty
cell.  State component: the position in the random stream. -/
def genF (s : Nat → Nat) : Nat → Grid → Nat → Bool × Grid × Nat
  | 0, g, k =>
    match find_empty_cell g with
    | none => (true, g, (shuffle_array s numbers0 k).2)
    | some _ => (false, g, (shuffle_array s numbers0 k).2)
  | fuel + 1, g, k =>
    match find_empty_cell g with
    | none => (true, g, (shuffle_array s numbers0 k).2)
    | some (r, c) =>
      searchCands (genF s fuel) r c g (shuffle_array s numbers0 k).2
        (candList (shuffle_array s numbers0 k).1)

/-- Embedding of generate_complete_grid (generator.c:52). -/
def generate_complete_grid (s : Nat → Nat) (g : Grid) (k : Nat) :
    Bool × Grid × Nat := genF s 81 g k

theorem genF_none {s : Nat → Nat} {fuel : Nat} {g : Grid} {k : Nat}
    (hf : find_empty_cell g = none) :
    genF s fuel g k = (true, g, (shuffle_array s numbers0 k).2) := by
  cases fuel <;> unfold genF <;> rw [hf]

theorem genF_zero_some {s : Nat → Nat} {g : Grid} {k r c : Nat}
    (hf : find_empty_cell g = some (r, c)) :
    genF s 0 g k = (false, g, (shuffle_array s numbers0 k).2) := by
  unfold genF; rw [hf]

theorem genF_succ_some {s : Nat → Nat} {fuel : Nat} {g : Grid} {k r c : Nat}
    (hf : find_empty_cell g = some (r, c)) :
    genF s (fuel + 1) g k =
      searchCands (genF s fuel) r c g (shuffle_array s numbers0 k).2
        (candList (shuffle_array s numbers0 k).1) := by
  conv_lhs => unfold genF
  rw [hf]

theorem genF_restore (s : Nat → Nat) : ∀ (fuel : Nat) (g : Grid) (k : Nat),
    (genF s fuel g k).1 = false → (genF s fuel g k).2.1 = g := by
  intro fuel
  induction fuel with
  | zero =>
    intro g k h
    cases hf : find_empty_cell g with
    | none => rw [genF_none hf] at h; simp at h
    | some p =>
      obtain ⟨r, c⟩ := p
      rw [genF_zero_some hf]
  | succ fuel ih =>
    intro g k h
    cases hf : find_empty_cell g with
    | none => rw [genF_none hf] at h; simp at h
    | some p =>
      obtain ⟨r, c⟩ := p
      rw [genF_succ_some hf] at h ⊢
      exact searchCands_restore _ (fun g2 st h2 => ih g2 st h2) r c _ g _
        (find_empty_cell_some hf).2.2 h

theorem genF_sound (s : Nat → Nat) : ∀ (fuel : Nat) (g : Grid) (k : Nat),
    (genF s fuel g k).1 = true → solvedFrom g (genF s fuel g k).2.1 := by
  intro fuel
  induction fuel with
  | zero =>
    intro g k h
    cases hf : find_empty_cell g with
    | none =>
      rw [genF_none hf]
      exact solvedFrom_self ((find_empty_cell_none_iff g).1 hf)
    | some p =>
      obtain ⟨r, c⟩ := p
      rw [genF_zero_some hf] at h
      simp at h
  | succ fuel ih =>
    intro g k h
    cases hf : find_empty_cell g with
    | none =>
      rw [genF_none hf]
      exact solvedFrom_self ((find_empty_cell_none_iff g).1 hf)
    | some p =>
      obtain ⟨r, c⟩ := p
      obtain ⟨hr, hc, hz⟩ := find_empty_cell_some hf
      rw [genF_succ_some hf] at h ⊢
      exact searchLoop_sound _ (fun g2 st h2 => ih g2 st h2)
        (fun g2 st h2 => genF_restore s fuel g2 st h2) r c hr hc _
        (fun v hvm => (shuffle_array_mem s k v).1 (mem_candList.1 hvm)) g _ hz h

theorem genF_complete (s : Nat → Nat) : ∀ (fuel : Nat) (g : Grid) (k : Nat),
    numEmpty g ≤ fuel → (∃ t, isCompletion g t) → (genF s fuel g k).1 = true := by
  intro fuel
  induction fuel with
  | zero =>
    intro g k hn hex
    have hcomp := numEmpty_zero_complete (Nat.le_zero.1 hn)
    rw [genF_none ((find_empty_cell_none_iff g).2 hcomp)]
  | succ fuel ih =>
    intro g k hn hex
    cases hf : find_empty_cell g with
    | none => rw [genF_none hf]
    | some p =>
      obtain ⟨r, c⟩ := p
      obtain ⟨hr, hc, hz⟩ := find_empty_cell_some hf
      obtain ⟨t, ht⟩ := hex
      rw [genF_succ_some hf]
      exact searchLoop_complete _ (fuel + 1)
        (fun g2 st hlt hex2 => ih g2 st (by omega) hex2)
        (fun g2 st h2 => genF_restore s fuel g2 st h2) r c hr hc _ g _ t ht hz hn
        (mem_candList.2 ((shuffle_array_mem s k (t r c)).2 (ht.2.1 r c hr hc)))

/-- Embedding of get_cells_to_remove (generator.c:96); the difficulty enum
EASY, MEDIUM, HARD, EXPERT is 0, 1, 2, 3 (sudoku.h:45), and any other value
falls to the default branch. -/
def get_cells_to_remove (difficulty : Nat) : Nat :=
  match difficulty with
  | 0 => 45
  | 1 => 49
  | 2 => 51
  | 3 => 53
  | _ => 45

/-- Embedding of the clue-removal loop of generate_puzzle (generator.c:161):
while removed < target and attempts < max, draw a random cell; skip it if
already empty, otherwise clear it and keep the removal only when the puzzle
still has a unique solution.  The budget argument is max_attempts minus
attempts, which strictly decreases every executed iteration because the C
loop increments attempts on every path; the third result component counts
the executed iterations. -/
def removeLoop (s : Nat → Nat) : Nat → Grid → Nat → Nat → Nat → Grid × Nat × Nat
  | 0, g, k, _, _ => (g, k, 0)
  | budget + 1, g, k, removed, target =>
    if removed < target then
      if g (s k % 9) (s (k + 1) % 9) = 0 then
        let t := removeLoop s budget g (k + 2) removed target
        (t.1, t.2.1, t.2.2 + 1)
      else
        if has_unique_solution (setCell g (s k % 9) (s (k + 1) % 9) 0) then
          let t := removeLoop s budget (setCell g (s k % 9) (s (k + 1) % 9) 0)
            (k + 2) (removed + 1) target
          (t.1, t.2.1, t.2.2 + 1)
        else
          let t := removeLoop s budget
            (setCell (setCell g (s k % 9) (s (k + 1) % 9) 0)
              (s k % 9) (s (k + 1) % 9) (g (s k % 9) (s (k + 1) % 9)))
            (k + 2) removed target
          (t.1, t.2.1, t.2.2 + 1)
    else (g, k, 0)

/-- Result record of generate_puzzle: the puzzle grid, the stored solution,
the given mask, the C return value, and the number of removal-loop
iterations executed (a ghost counter for the termination claim). -/
structure GenOut where
  puzzle : Grid
  solution : Grid
  given : Grid
  ret : Nat
  iters : Nat

/-- Step 5 of generate_puzzle (generator.c:198): given[r][c] = 1 exactly on
the nonzero cells of the final puzzle grid. -/
def givenOf (g : Grid) : Grid := fun r c => if g r c ≠ 0 then 1 else 0

/-- Embedding of generate_puzzle (generator.c:126) over a stream s of rand()
outputs (the stream the PRNG yields after the srand call at generator.c:128).
Steps: clear the grid, fill it with generate_complete_grid, store the
solution, run the removal loop with budget max_attempts = 10 * target, and
derive the given mask. -/
def generate_puzzle (s : Nat → Nat) (difficulty : Nat) : GenOut :=
  let cells_to_remove := get_cells_to_remove difficulty
  let t1 := generate_complete_grid s zeroGrid 0
  let t2 := removeLoop s (cells_to_remove * 10) t1.2.1 t1.2.2 0 cells_to_remove
  { puzzle := t2.1, solution := t1.2.1, given := givenOf t2.1, ret := 1,
    iters := t2.2.2 }

/-- Entry point of generate_puzzle as seen by the process PRNG: the call
executes srand(time(NULL)) at generator.c:128, so the rand() stream used by
the whole call is streamOfSeed applied to the clock value, and the PRNG
state the process had before the call (prior, priorPos) is discarded. -/
def generate_puzzle_entry (streamOfSeed : Nat → Nat → Nat)
    (prior : Nat → Nat) (priorPos : Nat) (clock : Nat) (difficulty : Nat) :
    GenOut :=
  generate_puzzle (streamOfSeed clock) difficulty

theorem removeLoop_iters (s : Nat → Nat) : ∀ (budget : Nat) (g : Grid)
    (k removed target : Nat),
    (removeLoop s budget g k removed target).2.2 ≤ budget := by
  intro budget
  induction budget with
  | zero => intro g k removed target; exact Nat.le_refl 0
  | succ budget ih =>
    intro g k removed target
    unfold removeLoop
    by_cases h1 : removed < target
    · rw [if_pos h1]
      by_cases h2 : g (s k % 9) (s (k + 1) % 9) = 0
      · rw [if_pos h2]
        have := ih g (k + 2) removed target
        simp only []
        omega
      · rw [if_neg h2]
        by_cases h3 : has_unique_solution
            (setCell g (s k % 9) (s (k + 1) % 9) 0) = true
        · rw [if_pos h3]
          have := ih (setCell g (s k % 9) (s (k + 1) % 9) 0) (k + 2)
            (removed + 1) target
          simp only []
          omega
        · rw [if_neg h3]
          have := ih (setCell (setCell g (s k % 9) (s (k + 1) % 9) 0)
            (s k % 9) (s (k + 1) % 9) (g (s k % 9) (s (k + 1) % 9))) (k + 2)
            removed target
          simp only []
          omega
    · rw [if_neg h1]
      exact Nat.zero_le _

theorem gridExtends_erase {g sol : Grid} {r c : Nat}
    (h : gridExtends g sol) : gridExtends (setCell g r c 0) sol := by
  intro i j hi hj hnz
  by_cases hij : i = r ∧ j = c
  · obtain ⟨e1, e2⟩ := hij; subst e1; subst e2
    rw [setCell_at] at hnz
    exact absurd rfl hnz
  · rw [setCell_ne g 0 hij] at hnz ⊢
    exact h i j hi hj hnz

theorem countF_complete_one {g : Grid} (h : isComplete g) :
    (countF 81 g 0).2.2 = 1 := by
  rw [countF_none ((find_empty_cell_none_iff g).2 h)]
  rfl

/-- Invariant of the removal loop: the puzzle stays a restriction of the
stored solution, and the oracle count stays 1 (each kept removal is guarded
by has_unique_solution; each rejected removal restores the cell). -/
theorem removeLoop_inv (s : Nat → Nat) (sol : Grid) : ∀ (budget : Nat)
    (g : Grid) (k removed target : Nat),
    gridExtends g sol → (countF 81 g 0).2.2 = 1 →
    gridExtends (removeLoop s budget g k removed target).1 sol ∧
      (countF 81 (removeLoop s budget g k removed target).1 0).2.2 = 1 := by
  intro budget
  induction budget with
  | zero => intro g k removed target hext hcount; exact ⟨hext, hcount⟩
  | succ budget ih =>
    intro g k removed target hext hcount
    unfold removeLoop
    by_cases h1 : removed < target
    · rw [if_pos h1]
      by_cases h2 : g (s k % 9) (s (k + 1) % 9) = 0
      · rw [if_pos h2]
        exact ih g (k + 2) removed target hext hcount
      · rw [if_neg h2]
        by_cases h3 : has_unique_solution
            (setCell g (s k % 9) (s (k + 1) % 9) 0) = true
        · rw [if_pos h3]
          have hcount2 : (countF 81 (setCell g (s k % 9) (s (k + 1) % 9) 0) 0).2.2
              = 1 := by
            unfold has_unique_solution at h3
            exact of_decide_eq_true h3
          exact ih (setCell g (s k % 9) (s (k + 1) % 9) 0) (k + 2) (removed + 1)
            target (gridExtends_erase hext) hcount2
        · rw [if_neg h3]
          rw [setCell_restore g (s k % 9) (s (k + 1) % 9)]
          exact ih g (k + 2) removed target hext hcount
    · rw [if_neg h1]
      exact ⟨hext, hcount⟩

theorem firstSome_map {α β γ : Type} (f : β → Option γ) (h : α → β) :
    ∀ l : List α, firstSome f (l.map h) = firstSome (fun x => f (h x)) l := by
  intro l
  induction l with
  | nil => rfl
  | cons a l ih => cases hfa : f (h a) <;> simp [firstSome, hfa, ih]

theorem firstSome_flatten {α β γ : Type} (F : α → β → Option γ)
    (m : α → List β) : ∀ l : List α,
    firstSome (fun p : α × β => F p.1 p.2)
        (l.flatMap fun a => (m a).map fun b => (a, b)) =
      firstSome (fun a => firstSome (F a) (m a)) l := by
  intro l
  induction l with
  | nil => rfl
  | cons a l ih =>
    rw [List.flatMap_cons, firstSome_append, firstSome_map]
    cases hfa : firstSome (F a) (m a) with
    | some b => simp [firstSome, orElseO, hfa]
    | none => simp [firstSome, orElseO, hfa, ih]

/-- Embedding of find_naked_single (game.c:403): row-major scan; for each
empty cell the loop at game.c:414 counts the valid digits and remembers the
last one, and a count of exactly 1 yields the hint. -/
def find_naked_single (g : Grid) : Option (Nat × Nat × Nat) :=
  firstSome
    (fun row =>
      firstSome
        (fun col =>
          if g row col ≠ 0 then none
          else
            if (digits.filter fun num => is_valid_placement g row col num).length
                = 1 then
              some (row, col,
                (digits.filter fun num =>
                  is_valid_placement g row col num).getLastD 0)
            else none)
        (List.range 9))
    (List.range 9)

/-- Row-major list of the cells of the 3x3 box with box coordinates
(br, bc), the order of the nested loops at game.c:516. -/
def boxCells (br bc : Nat) : List (Nat × Nat) :=
  (List.range 3).flatMap fun dr =>
    (List.range 3).map fun dc => (br * 3 + dr, bc * 3 + dc)

/-- Embedding of find_hidden_single (game.c:444): for each digit 1..9, scan
all rows, then all columns, then all boxes; in each region collect the empty
cells where the digit is a valid placement (possible_cols, possible_rows,
possible_positions) and a collection of size exactly 1 yields the hint at
its first element. -/
def find_hidden_single (g : Grid) : Option (Nat × Nat × Nat) :=
  firstSome
    (fun num =>
      orElseO
        (firstSome
          (fun row =>
            if ((List.range 9).filter fun col =>
                g row col == 0 && is_valid_placement g row col num).length = 1 then
              some (row,
                ((List.range 9).filter fun col =>
                  g row col == 0 && is_valid_placement g row col num).headD 0,
                num)
            else none)
          (List.range 9))
        (orElseO
          (firstSome
            (fun col =>
              if ((List.range 9).filter fun row =>
                  g row col == 0 && is_valid_placement g row col num).length
                  = 1 then
                some (((List.range 9).filter fun row =>
                    g row col == 0 && is_valid_placement g row col num).headD 0,
                  col, num)
              else none)
            (List.range 9))
          (
          firstSome
            (fun br =>
              firstSome
                (fun bc =>
                  if ((boxCells br bc).filter fun p =>
                      g p.1 p.2 == 0 &&
                        is_valid_placement g p.1 p.2 num).length = 1 then
                    some ((((boxCells br bc).filter fun p =>
                        g p.1 p.2 == 0 &&
                          is_valid_placement g p.1 p.2 num).headD (0, 0)).1,
                      (((boxCells br bc).filter fun p =>
                        g p.1 p.2 == 0 &&
                          is_valid_placement g p.1 p.2 num).headD (0, 0)).2,
                      num)
                  else none)
                (List.range 3))
            (List.range 3))))
    digits

/-- Embedding of get_hint (game.c:360): naked single, then hidden single,
then the fallback reveal of the first empty non-given cell from the stored
solution. -/
def get_hint (g sol given : Grid) : Option (Nat × Nat × Nat) :=
  orElseO (find_naked_single g)
    (orElseO (find_hidden_single g)
      (firstSome
        (fun row =>
          firstSome
            (fun col =>
              if g row col == 0 && given row col == 0 then
                some (row, col, sol row col)
              else none)
            (List.range 9))
        (List.range 9)))

theorem firstSome_congr {α β : Type} {f f2 : α → Option β} :
    ∀ {l : List α}, (∀ a ∈ l, f a = f2 a) → firstSome f l = firstSome f2 l := by
  intro l
  induction l with
  | nil => intro _; rfl
  | cons a l ih =>
    intro h
    have ha := h a (by simp)
    unfold firstSome
    rw [ha]
    cases f2 a with
    | some b => rfl
    | none => exact ih fun x hx => h x (by simp [hx])

theorem firstSome_flatMap {α β γ : Type} (f : β → Option γ) (m : α → List β) :
    ∀ l : List α,
    firstSome f (l.flatMap m) = firstSome (fun a => firstSome f (m a)) l := by
  intro l
  induction l with
  | nil => rfl
  | cons a l ih =>
    rw [List.flatMap_cons, firstSome_append]
    cases hfa : firstSome f (m a) with
    | some b => simp [firstSome, orElseO, hfa]
    | none => simp [firstSome, orElseO, hfa, ih]

theorem headD_eq_getLastD {α : Type} {l : List α} (h : l.length = 1) (d : α) :
    l.headD d = l.getLastD d := by
  cases l with
  | nil => simp at h
  | cons a t =>
    cases t with
    | nil => rfl
    | cons b t2 => simp at h

/-- Row-major enumeration of the 81 cells. -/
def rowMajorCells : List (Nat × Nat) :=
  (List.range 9).flatMap fun r => (List.range 9).map fun c => (r, c)

/-- Naked-single strategy as the specification words it: the first empty
cell, in row-major order, having exactly one valid digit; the hint value is
that digit. -/
def nakedSingleSpec (g : Grid) : Option (Nat × Nat × Nat) :=
  firstSome
    (fun p =>
      if g p.1 p.2 = 0 ∧
          (digits.filter fun num => is_valid_placement g p.1 p.2 num).length = 1
      then
        some (p.1, p.2,
          (digits.filter fun num => is_valid_placement g p.1 p.2 num).headD 0)
      else none)
    rowMajorCells

/-- The nine rows, as cell lists. -/
def rowRegions : List (List (Nat × Nat)) :=
  (List.range 9).map fun r => (List.range 9).map fun c => (r, c)

/-- The nine columns, as cell lists. -/
def colRegions : List (List (Nat × Nat)) :=
  (List.range 9).map fun c => (List.range 9).map fun r => (r, c)

/-- The nine 3x3 boxes in row-major box order, as cell lists. -/
def boxRegions : List (List (Nat × Nat)) :=
  (List.range 3).flatMap fun br => (List.range 3).map fun bc => boxCells br bc

/-- Hidden-single strategy as the specification words it: digits 1..9
outermost; for each digit all rows, then all columns, then all boxes; the
first region with exactly one empty cell admitting the digit yields that
cell. -/
def hiddenSingleSpec (g : Grid) : Option (Nat × Nat × Nat) :=
  firstSome
    (fun num =>
      firstSome
        (fun region =>
          if (region.filter fun p =>
              g p.1 p.2 == 0 && is_valid_placement g p.1 p.2 num).length = 1
          then
            some (((region.filter fun p =>
                g p.1 p.2 == 0 &&
                  is_valid_placement g p.1 p.2 num).headD (0, 0)).1,
              ((region.filter fun p =>
                g p.1 p.2 == 0 &&
                  is_valid_placement g p.1 p.2 num).headD (0, 0)).2,
              num)
          else none)
        (rowRegions ++ colRegions ++ boxRegions))
    digits

/-- Fallback strategy as the specification words it: the first empty
non-given cell in row-major order, revealed from the stored solution. -/
def fallbackSpec (g sol given : Grid) : Option (Nat × Nat × Nat) :=
  firstSome
    (fun p =>
      if g p.1 p.2 = 0 ∧ given p.1 p.2 = 0 then some (p.1, p.2, sol p.1 p.2)
      else none)
    rowMajorCells

/-- The complete strategy cascade of the specification, first applicable
result wins. -/
def hintCascadeSpec (g sol given : Grid) : Option (Nat × Nat × Nat) :=
  orElseO (nakedSingleSpec g)
    (orElseO (hiddenSingleSpec g) (fallbackSpec g sol given))

theorem filter_of_map {α β : Type} (f : α → β) (p : β → Bool) :
    ∀ l : List α, (l.map f).filter p = (l.filter fun a => p (f a)).map f := by
  intro l
  induction l with
  | nil => rfl
  | cons a l ih =>
    by_cases hp : p (f a) = true <;> simp [hp, ih]

theorem find_naked_single_eq (g : Grid) :
    find_naked_single g = nakedSingleSpec g := by
  unfold nakedSingleSpec rowMajorCells
  rw [firstSome_flatten
    (fun r c =>
      if g r c = 0 ∧
          (digits.filter fun num => is_valid_placement g r c num).length = 1
      then
        some (r, c,
          (digits.filter fun num => is_valid_placement g r c num).headD 0)
      else none)
    (fun _ => List.range 9) (List.range 9)]
  unfold find_naked_single
  apply firstSome_congr
  intro r hr
  apply firstSome_congr
  intro c hc
  by_cases hz : g r c = 0
  · rw [if_neg (by simp [hz] : ¬ g r c ≠ 0)]
    by_cases hl :
        (digits.filter fun num => is_valid_placement g r c num).length = 1
    · rw [if_pos hl, if_pos ⟨hz, hl⟩, headD_eq_getLastD hl]
    · rw [if_neg hl, if_neg (by intro h; exact hl h.2)]
  · rw [if_pos hz, if_neg (by intro h; exact hz h.1)]

theorem length_one_head {α : Type} {l : List α} (h : l.length = 1) (d : α) :
    l = [l.headD d] := by
  cases l with
  | nil => simp at h
  | cons a t =>
    cases t with
    | nil => rfl
    | cons b t2 => simp at h

theorem scan_map_eq {α : Type} (P : Nat × Nat → Bool) (f : α → Nat × Nat)
    (l : List α) (num : Nat) (d : α) :
    (if ((l.map f).filter P).length = 1
     then
       some ((((l.map f).filter P).headD (0, 0)).1,
         (((l.map f).filter P).headD (0, 0)).2, num)
     else none)
    = (if (l.filter fun a => P (f a)).length = 1
       then
         some ((f ((l.filter fun a => P (f a)).headD d)).1,
           (f ((l.filter fun a => P (f a)).headD d)).2, num)
       else none) := by
  rw [filter_of_map]
  by_cases hl : (l.filter fun a => P (f a)).length = 1
  · rw [if_pos (by simp [hl]), if_pos hl]
    have hrep := length_one_head hl d
    rw [hrep]
    rfl
  · rw [if_neg (by simp [hl]), if_neg hl]

theorem find_hidden_single_eq (g : Grid) :
    find_hidden_single g = hiddenSingleSpec g := by
  unfold find_hidden_single hiddenSingleSpec
  apply firstSome_congr
  intro num hnum
  have hrow :
      firstSome
        (fun region : List (Nat × Nat) =>
          if (region.filter fun p =>
              g p.1 p.2 == 0 && is_valid_placement g p.1 p.2 num).length = 1
          then
            some (((region.filter fun p =>
                g p.1 p.2 == 0 &&
                  is_valid_placement g p.1 p.2 num).headD (0, 0)).1,
              ((region.filter fun p =>
                g p.1 p.2 == 0 &&
                  is_valid_placement g p.1 p.2 num).headD (0, 0)).2,
              num)
          else none)
        rowRegions =
      firstSome
        (fun row =>
          if ((List.range 9).filter fun col =>
              g row col == 0 && is_valid_placement g row col num).length = 1 then
            some (row,
              ((List.range 9).filter fun col =>
                g row col == 0 && is_valid_placement g row col num).headD 0,
              num)
          else none)
        (List.range 9) := by
    unfold rowRegions
    rw [firstSome_map]
    apply firstSome_congr
    intro r hr
    rw [scan_map_eq
      (fun p => g p.1 p.2 == 0 && is_valid_placement g p.1 p.2 num)
      (fun c => (r, c)) (List.range 9) num 0]
  have hcol :
      firstSome
        (fun region : List (Nat × Nat) =>
          if (region.filter fun p =>
              g p.1 p.2 == 0 && is_valid_placement g p.1 p.2 num).length = 1
          then
            some (((region.filter fun p =>
                g p.1 p.2 == 0 &&
                  is_valid_placement g p.1 p.2 num).headD (0, 0)).1,
              ((region.filter fun p =>
                g p.1 p.2 == 0 &&
                  is_valid_placement g p.1 p.2 num).headD (0, 0)).2,
              num)
          else none)
        colRegions =
      firstSome
        (fun col =>
          if ((List.range 9).filter fun row =>
              g row col == 0 && is_valid_placement g row col num).length = 1 then
            some (((List.range 9).filter fun row =>
                g row col == 0 && is_valid_placement g row col num).headD 0,
              col, num)
          else none)
        (List.range 9) := by
    unfold colRegions
    rw [firstSome_map]
    apply firstSome_congr
    intro c hc
    rw [scan_map_eq
      (fun p => g p.1 p.2 == 0 && is_valid_placement g p.1 p.2 num)
      (fun r => (r, c)) (List.range 9) num 0]
  have hbox :
      firstSome
        (fun region : List (Nat × Nat) =>
          if (region.filter fun p =>
              g p.1 p.2 == 0 && is_valid_placement g p.1 p.2 num).length = 1
          then
            some (((region.filter fun p =>
                g p.1 p.2 == 0 &&
                  is_valid_placement g p.1 p.2 num).headD (0, 0)).1,
              ((region.filter fun p =>
                g p.1 p.2 == 0 &&
                  is_valid_placement g p.1 p.2 num).headD (0, 0)).2,
              num)
          else none)
        boxRegions =
      firstSome
        (fun br =>
          firstSome
            (fun bc =>
              if ((boxCells br bc).filter fun p =>
                  g p.1 p.2 == 0 &&
                    is_valid_placement g p.1 p.2 num).length = 1 then
                some ((((boxCells br bc).filter fun p =>
                    g p.1 p.2 == 0 &&
                      is_valid_placement g p.1 p.2 num).headD (0, 0)).1,
                  (((boxCells br bc).filter fun p =>
                    g p.1 p.2 == 0 &&
                      is_valid_placement g p.1 p.2 num).headD (0, 0)).2,
                  num)
              else none)
            (List.range 3))
        (List.range 3) := by
    unfold boxRegions
    rw [firstSome_flatMap]
    apply firstSome_congr
    intro br hbr
    rw [firstSome_map]
  rw [List.append_assoc, firstSome_append, firstSome_append, hrow, hcol, hbox]

theorem orElseO_eq_none {α : Type} {x y : Option α} :
    orElseO x y = none ↔ x = none ∧ y = none := by
  cases x <;> simp [orElseO]

theorem get_hint_eq (g sol given : Grid) :
    get_hint g sol given = hintCascadeSpec g sol given := by
  unfold get_hint hintCascadeSpec
  rw [find_naked_single_eq, find_hidden_single_eq]
  have hfall :
      firstSome
        (fun row =>
          firstSome
            (fun col =>
              if g row col == 0 && given row col == 0 then
                some (row, col, sol row col)
              else none)
            (List.range 9))
        (List.range 9) = fallbackSpec g sol given := by
    unfold fallbackSpec rowMajorCells
    rw [firstSome_flatten
      (fun r c =>
        if g r c = 0 ∧ given r c = 0 then some (r, c, sol r c) else none)
      (fun _ => List.range 9) (List.range 9)]
    apply firstSome_congr
    intro r hr
    apply firstSome_congr
    intro c hc
    by_cases h1 : g r c = 0
    · by_cases h2 : given r c = 0
      · simp [h1, h2]
      · simp [h1, h2]
    · simp [h1]
  rw [hfall]

theorem mem_boxCells {br bc : Nat} {p : Nat × Nat} (hbr : br < 3) (hbc : bc < 3)
    (hp : p ∈ boxCells br bc) : p.1 < 9 ∧ p.2 < 9 := by
  simp only [boxCells, List.mem_flatMap, List.mem_map, List.mem_range] at hp
  obtain ⟨dr, hdr, dc, hdc, rfl⟩ := hp
  constructor <;> simp <;> omega

theorem get_hint_none_iff (g sol given : Grid)
    (hgiven : ∀ r c, r < 9 → c < 9 → given r c ≠ 0 → g r c ≠ 0) :
    (get_hint g sol given = none ↔ is_grid_complete g = true) := by
  constructor
  · intro h
    unfold get_hint at h
    rw [orElseO_eq_none, orElseO_eq_none] at h
    obtain ⟨hnaked, hhidden, hfall⟩ := h
    rw [is_grid_complete_iff]
    intro r hr c hc hz
    have h1 := (firstSome_eq_none _ _).1 hfall r (by simp [hr])
    have h2 := (firstSome_eq_none _ _).1 h1 c (by simp [hc])
    by_cases hgv : given r c = 0
    · simp [hz, hgv] at h2
    · exact hgiven r c hr hc hgv hz
  · intro h
    rw [is_grid_complete_iff] at h
    unfold get_hint
    rw [orElseO_eq_none, orElseO_eq_none]
    refine ⟨?_, ?_, ?_⟩
    · unfold find_naked_single
      rw [firstSome_eq_none]
      intro r hr
      rw [firstSome_eq_none]
      intro c hc
      simp only [List.mem_range] at hr hc
      rw [if_pos (h r hr c hc)]
    · unfold find_hidden_single
      rw [firstSome_eq_none]
      intro num hnum
      have hfilter : ∀ (l : List (Nat × Nat)),
          (∀ p ∈ l, p.1 < 9 ∧ p.2 < 9) →
          (l.filter fun p =>
            g p.1 p.2 == 0 && is_valid_placement g p.1 p.2 num) = [] := by
        intro l hl
        rw [List.filter_eq_nil_iff]
        intro p hp
        have hb := hl p hp
        simp [h p.1 hb.1 p.2 hb.2]
      rw [orElseO_eq_none, orElseO_eq_none]
      refine ⟨?_, ?_, ?_⟩
      · rw [firstSome_eq_none]
        intro row hrow
        simp only [List.mem_range] at hrow
        have hrw : ((List.range 9).filter fun col =>
            g row col == 0 && is_valid_placement g row col num) = [] := by
          rw [List.filter_eq_nil_iff]
          intro col hcol
          simp only [List.mem_range] at hcol
          simp [h row hrow col hcol]
        rw [if_neg (by rw [hrw]; simp)]
      · rw [firstSome_eq_none]
        intro col hcol
        simp only [List.mem_range] at hcol
        have hrw : ((List.range 9).filter fun row =>
            g row col == 0 && is_valid_placement g row col num) = [] := by
          rw [List.filter_eq_nil_iff]
          intro row hrow
          simp only [List.mem_range] at hrow
          simp [h row hrow col hcol]
        rw [if_neg (by rw [hrw]; simp)]
      · rw [firstSome_eq_none]
        intro br hbr
        rw [firstSome_eq_none]
        intro bc hbc
        simp only [List.mem_range] at hbr hbc
        have hrw := hfilter (boxCells br bc)
          (fun p hp => mem_boxCells hbr hbc hp)
        rw [if_neg (by rw [hrw]; simp)]
    · rw [firstSome_eq_none]
      intro r hr
      rw [firstSome_eq_none]
      intro c hc
      simp only [List.mem_range] at hr hc
      simp [h r hr c hc]

theorem is_grid_valid_iff_pointwise (g : Grid) :
    is_grid_valid g = true ↔
      ∀ r c, r < 9 → c < 9 → g r c ≠ 0 → validAt g r c (g r c) := by
  unfold is_grid_valid
  simp only [List.all_eq_true, List.mem_range]
  constructor
  · intro h r c hr hc hnz
    have hcell := h r hr c hc
    rw [if_neg hnz] at hcell
    simp only [Bool.and_eq_true, List.all_eq_true, List.mem_range,
      Bool.or_eq_true, beq_iff_eq, Bool.not_eq_true', beq_eq_false_iff_ne]
      at hcell
    obtain ⟨hrow, hcol, hbox⟩ := hcell
    refine ⟨fun x hx hxr => ?_, fun y hy hyc => ?_,
      fun x y hx hy hbx hby hne => ?_⟩
    · rcases hcol x hx with hh | hh
      · exact absurd hh hxr
      · exact hh
    · rcases hrow y hy with hh | hh
      · exact absurd hh hyc
      · exact hh
    · have hdx : x = r / 3 * 3 + (x % 3) := by omega
      have hdy : y = c / 3 * 3 + (y % 3) := by omega
      rcases hbox (x % 3) (by omega) (y % 3) (by omega) with hh | hh
      · exfalso
        apply hne
        constructor <;> omega
      · rw [hdx, hdy]
        exact hh
  · intro h r hr c hc
    by_cases hnz : g r c = 0
    · rw [if_pos hnz]
    · rw [if_neg hnz]
      obtain ⟨h1, h2, h3⟩ := h r c hr hc hnz
      simp only [Bool.and_eq_true, List.all_eq_true, List.mem_range,
        Bool.or_eq_true, beq_iff_eq, Bool.not_eq_true', beq_eq_false_iff_ne]
      refine ⟨fun ci hci => ?_, fun ri hri => ?_, fun dx hdx dy hdy => ?_⟩
      · by_cases hcy : ci = c
        · exact Or.inl hcy
        · exact Or.inr (h2 ci hci hcy)
      · by_cases hrx : ri = r
        · exact Or.inl hrx
        · exact Or.inr (h1 ri hri hrx)
      · by_cases he : r / 3 * 3 + dx = r ∧ c / 3 * 3 + dy = c
        · simp [he.1, he.2]
        · exact Or.inr (h3 _ _ (by omega) (by omega) (by omega) (by omega) he)

theorem is_grid_valid_iff_validG (g : Grid) :
    is_grid_valid g = true ↔ validG g := by
  rw [is_grid_valid_iff_pointwise]
  exact (validG_iff_pointwise g).symm

instance (g1 g2 : Grid) : Decidable (gridEq g1 g2) :=
  decidable_of_iff (∀ r, r < 9 → ∀ c, c < 9 → g1 r c = g2 r c) Iff.rfl

instance (g : Grid) : Decidable (isComplete g) :=
  decidable_of_iff (∀ r, r < 9 → ∀ c, c < 9 → g r c ≠ 0) Iff.rfl

instance (g s : Grid) : Decidable (gridExtends g s) :=
  decidable_of_iff (∀ r, r < 9 → ∀ c, c < 9 → g r c ≠ 0 → s r c = g r c)
    ⟨fun h r c hr hc => h r hr c hc, fun h r hr c hc => h r c hr hc⟩

instance (g : Grid) : Decidable (validG g) :=
  decidable_of_iff (is_grid_valid g = true) (is_grid_valid_iff_validG g)

instance (g s : Grid) : Decidable (isCompletion g s) :=
  decidable_of_iff
    (gridExtends g s ∧ (∀ r, r < 9 → ∀ c, c < 9 → 1 ≤ s r c ∧ s r c ≤ 9) ∧
      validG s)
    ⟨fun h => ⟨h.1, fun r c hr hc => h.2.1 r hr c hc, h.2.2⟩,
     fun h => ⟨h.1, fun r hr c hc => h.2.1 r c hr hc, h.2.2⟩⟩

/-- The unique completion of the classic fixed puzzle of the specification,
used as a concrete witness grid. -/
def classicSolved : Grid := ofRows [
  [5,3,4,6,7,8,9,1,2],
  [6,7,2,1,9,5,3,4,8],
  [1,9,8,3,4,2,5,6,7],
  [8,5,9,7,6,1,4,2,3],
  [4,2,6,8,5,3,7,9,1],
  [7,1,3,9,2,4,8,5,6],
  [9,6,1,5,3,7,2,8,4],
  [2,8,7,4,1,9,6,3,5],
  [3,4,5,2,8,6,1,7,9]]

/-- classicSolved with the rectangle (3,5) (3,8) (4,5) (4,8) blanked; the
two cells 1 and 3 can be swapped, so this grid has exactly two completions
and drives the oracle into its early-exit path. -/
def twoSolGrid : Grid := ofRows [
  [5,3,4,6,7,8,9,1,2],
  [6,7,2,1,9,5,3,4,8],
  [1,9,8,3,4,2,5,6,7],
  [8,5,9,7,6,0,4,2,0],
  [4,2,6,8,5,0,7,9,0],
  [7,1,3,9,2,4,8,5,6],
  [9,6,1,5,3,7,2,8,4],
  [2,8,7,4,1,9,6,3,5],
  [3,4,5,2,8,6,1,7,9]]

/-- A complete valid grid, witnessing that the all-empty grid is solvable. -/
def patternGrid : Grid := ofRows [
  [1,2,3,4,5,6,7,8,9],
  [4,5,6,7,8,9,1,2,3],
  [7,8,9,1,2,3,4,5,6],
  [2,3,4,5,6,7,8,9,1],
  [5,6,7,8,9,1,2,3,4],
  [8,9,1,2,3,4,5,6,7],
  [3,4,5,6,7,8,9,1,2],
  [6,7,8,9,1,2,3,4,5],
  [9,1,2,3,4,5,6,7,8]]

/-- classicSolved with cells (0,0) and (0,1) blanked: a grid with exactly
one completion and a two-step solver search. -/
def uniq2Grid : Grid := ofRows [
  [0,0,4,6,7,8,9,1,2],
  [6,7,2,1,9,5,3,4,8],
  [1,9,8,3,4,2,5,6,7],
  [8,5,9,7,6,1,4,2,3],
  [4,2,6,8,5,3,7,9,1],
  [7,1,3,9,2,4,8,5,6],
  [9,6,1,5,3,7,2,8,4],
  [2,8,7,4,1,9,6,3,5],
  [3,4,5,2,8,6,1,7,9]]

/-- classicSolved with cell (0,1) overwritten by a second 5: a complete grid
that violates the Sudoku rules, hence has no valid completion. -/
def invalidFullGrid : Grid := ofRows [
  [5,5,4,6,7,8,9,1,2],
  [6,7,2,1,9,5,3,4,8],
  [1,9,8,3,4,2,5,6,7],
  [8,5,9,7,6,1,4,2,3],
  [4,2,6,8,5,3,7,9,1],
  [7,1,3,9,2,4,8,5,6],
  [9,6,1,5,3,7,2,8,4],
  [2,8,7,4,1,9,6,3,5],
  [3,4,5,2,8,6,1,7,9]]

/-- classicSolved with (0,0) blanked and (1,0) overwritten by 5: the single
empty cell admits no digit, so the solver fails immediately. -/
def stuckGrid : Grid := ofRows [
  [0,3,4,6,7,8,9,1,2],
  [5,7,2,1,9,5,3,4,8],
  [1,9,8,3,4,2,5,6,7],
  [8,5,9,7,6,1,4,2,3],
  [4,2,6,8,5,3,7,9,1],
  [7,1,3,9,2,4,8,5,6],
  [9,6,1,5,3,7,2,8,4],
  [2,8,7,4,1,9,6,3,5],
  [3,4,5,2,8,6,1,7,9]]

theorem pattern_digits :
    ∀ r, r < 9 → ∀ c, c < 9 → 1 ≤ patternGrid r c ∧ patternGrid r c ≤ 9 := by
  decide

theorem pattern_completes_zero : isCompletion zeroGrid patternGrid :=
  ⟨fun _ _ _ _ h => absurd rfl h, fun r c hr hc => pattern_digits r hr c hc,
    by decide⟩

theorem validG_zeroGrid : validG zeroGrid :=
  fun _ _ _ _ _ _ _ _ _ _ hz _ => absurd rfl hz

/-- C1: every output of generate_puzzle satisfies the generation contract:
the puzzle passes is_grid_valid, it has exactly one completion and that
completion is the stored solution (equivalently count_solutions returns 1),
the given mask marks exactly the nonzero puzzle cells, and every given cell
agrees with the solution. -/
theorem c1_generate_puzzle_correct : ∀ (s : Nat → Nat) (d : Nat),
    is_grid_valid (generate_puzzle s d).puzzle = true ∧
    isCompletion (generate_puzzle s d).puzzle (generate_puzzle s d).solution ∧
    (∀ t, isCompletion (generate_puzzle s d).puzzle t →
      gridEq t (generate_puzzle s d).solution) ∧
    (count_solutions (generate_puzzle s d).puzzle).1 = 1 ∧
    (∀ r, r < 9 → ∀ c, c < 9 →
      ((generate_puzzle s d).given r c = 1 ↔
        (generate_puzzle s d).puzzle r c ≠ 0)) ∧
    (∀ r, r < 9 → ∀ c, c < 9 → (generate_puzzle s d).given r c = 1 →
      (generate_puzzle s d).puzzle r c = (generate_puzzle s d).solution r c)
    := by
  intro s d
  have hsuccess : (generate_complete_grid s zeroGrid 0).1 = true := by
    unfold generate_complete_grid
    exact genF_complete s 81 zeroGrid 0 (numEmpty_le_81 _)
      ⟨patternGrid, pattern_completes_zero⟩
  have hsolved : solvedFrom zeroGrid (generate_complete_grid s zeroGrid 0).2.1
      := by
    unfold generate_complete_grid at hsuccess ⊢
    exact genF_sound s 81 zeroGrid 0 hsuccess
  have hcompl : isComplete (generate_complete_grid s zeroGrid 0).2.1 :=
    hsolved.2.2.1
  have hdig : ∀ r c, r < 9 → c < 9 →
      1 ≤ (generate_complete_grid s zeroGrid 0).2.1 r c ∧
        (generate_complete_grid s zeroGrid 0).2.1 r c ≤ 9 := by
    intro r c hr hc
    rcases hsolved.2.1 r c hr hc with h | h
    · exact absurd h (hcompl r hr c hc)
    · exact h
  have hvalid : validG (generate_complete_grid s zeroGrid 0).2.1 :=
    hsolved.2.2.2 validG_zeroGrid
  have hinv := removeLoop_inv s (generate_complete_grid s zeroGrid 0).2.1
    (get_cells_to_remove d * 10) (generate_complete_grid s zeroGrid 0).2.1
    (generate_complete_grid s zeroGrid 0).2.2 0 (get_cells_to_remove d)
    (gridExtends_refl _) (countF_complete_one hcompl)
  obtain ⟨hext, hcnt⟩ := hinv
  have hpcomp : isCompletion (generate_puzzle s d).puzzle
      (generate_puzzle s d).solution := ⟨hext, hdig, hvalid⟩
  refine ⟨?_, hpcomp, ?_, hcnt, ?_, ?_⟩
  · rw [is_grid_valid_iff_validG]
    exact validG_of_extends hext hvalid
  · intro t ht
    exact oracle_unique hcnt t _ ht hpcomp
  · intro r hr c hc
    show (givenOf (generate_puzzle s d).puzzle r c = 1 ↔ _)
    unfold givenOf
    by_cases h : (generate_puzzle s d).puzzle r c ≠ 0
    · rw [if_pos h]
      exact ⟨fun _ => h, fun _ => rfl⟩
    · rw [if_neg h]
      exact ⟨fun hh => absurd hh (by omega), fun hh => absurd hh h⟩
  · intro r hr c hc hgv
    have hnz : (generate_puzzle s d).puzzle r c ≠ 0 := by
      revert hgv
      show givenOf (generate_puzzle s d).puzzle r c = 1 → _
      unfold givenOf
      by_cases h : (generate_puzzle s d).puzzle r c ≠ 0
      · exact fun _ => h
      · rw [if_neg h]
        intro hh
        exact absurd hh (by omega)
    exact (hext r c hr hc hnz).symm

/-- C1 witness: the contract instantiated at a concrete stream and
difficulty. -/
theorem c1_witness :
    is_grid_valid (generate_puzzle (fun k => k) 0).puzzle = true ∧
    isCompletion (generate_puzzle (fun k => k) 0).puzzle
      (generate_puzzle (fun k => k) 0).solution ∧
    (∀ t, isCompletion (generate_puzzle (fun k => k) 0).puzzle t →
      gridEq t (generate_puzzle (fun k => k) 0).solution) ∧
    (count_solutions (generate_puzzle (fun k => k) 0).puzzle).1 = 1 ∧
    (∀ r, r < 9 → ∀ c, c < 9 →
      ((generate_puzzle (fun k => k) 0).given r c = 1 ↔
        (generate_puzzle (fun k => k) 0).puzzle r c ≠ 0)) ∧
    (∀ r, r < 9 → ∀ c, c < 9 →
      (generate_puzzle (fun k => k) 0).given r c = 1 →
      (generate_puzzle (fun k => k) 0).puzzle r c =
        (generate_puzzle (fun k => k) 0).solution r c) :=
  c1_generate_puzzle_correct (fun k => k) 0

/-- C7: generate_puzzle always terminates returning 1; its clue-removal loop
runs at most max_attempts = 10 x target iterations, where the target is the
difficulty table 45, 49, 51, 53 with 45 for any unrecognized value; every
iteration, of any kind, spends one unit of the attempt budget. -/
theorem c7_generate_budget : ∀ (s : Nat → Nat) (d : Nat),
    (generate_puzzle s d).ret = 1 ∧
    (generate_puzzle s d).iters ≤ 10 * get_cells_to_remove d ∧
    get_cells_to_remove 0 = 45 ∧ get_cells_to_remove 1 = 49 ∧
    get_cells_to_remove 2 = 51 ∧ get_cells_to_remove 3 = 53 ∧
    (∀ d2, 4 ≤ d2 → get_cells_to_remove d2 = 45) := by
  intro s d
  refine ⟨rfl, ?_, rfl, rfl, rfl, rfl, ?_⟩
  · have h := removeLoop_iters s (get_cells_to_remove d * 10)
      (generate_complete_grid s zeroGrid 0).2.1
      (generate_complete_grid s zeroGrid 0).2.2 0 (get_cells_to_remove d)
    calc (generate_puzzle s d).iters ≤ get_cells_to_remove d * 10 := h
      _ = 10 * get_cells_to_remove d := Nat.mul_comm _ _
  · intro d2 hd2
    obtain ⟨k, rfl⟩ : ∃ k, d2 = k + 4 := ⟨d2 - 4, by omega⟩
    rfl

/-- C7 witness: the budget contract instantiated at a concrete stream and
difficulty. -/
theorem c7_witness :
    (generate_puzzle (fun k => k + 1) 2).ret = 1 ∧
    (generate_puzzle (fun k => k + 1) 2).iters ≤ 10 * get_cells_to_remove 2 ∧
    get_cells_to_remove 0 = 45 ∧ get_cells_to_remove 1 = 49 ∧
    get_cells_to_remove 2 = 51 ∧ get_cells_to_remove 3 = 53 ∧
    (∀ d2, 4 ≤ d2 → get_cells_to_remove d2 = 45) :=
  c7_generate_budget (fun k => k + 1) 2

/-- C8, divergence witness: the embedded generate_puzzle entry point
re-seeds the PRNG from the wall clock (srand at generator.c:128), so its
result does not depend on the PRNG state the process had before the call:
two calls with equal clock values give identical outputs whatever the prior
state was.  The claim says the PRNG is never re-seeded inside the call,
which this behavior contradicts. -/
theorem c8_reseed_discards_prior_state :
    ∀ (streamOfSeed : Nat → Nat → Nat) (prior1 : Nat → Nat) (pos1 : Nat)
      (prior2 : Nat → Nat) (pos2 : Nat) (clock d : Nat),
    generate_puzzle_entry streamOfSeed prior1 pos1 clock d =
      generate_puzzle_entry streamOfSeed prior2 pos2 clock d :=
  fun _ _ _ _ _ _ _ => rfl

/-- C2 counterexample: count_solutions operates on the caller's grid, and on
a grid with two completions the early-exit path leaves it mutated: after the
call the caller's buffer differs from the input (it holds the second
discovered solution). -/
theorem c2_count_solutions_mutates :
    (count_solutions twoSolGrid).1 = 2 ∧
    ¬ gridEq (count_solutions twoSolGrid).2 twoSolGrid := by
  constructor
  · decide
  · decide

/-- C2 as amended: has_unique_solution never mutates the caller's grid (the
helper runs on a private copy), and count_solutions, which runs the helper
directly on the caller's grid, restores it before returning whenever the
returned count is at most 1; only the early-exit path with two or more
completions leaves the grid mutated. -/
theorem c2_oracle_frame : ∀ g : Grid,
    (has_unique_solution_state g).2 = g ∧
    ((count_solutions g).1 ≤ 1 → gridEq (count_solutions g).2 g) := by
  intro g
  refine ⟨rfl, ?_⟩
  intro hle
  have hok := countF_basic 81 g 0 (by omega)
  have hsig : (countF 81 g 0).1 = false := by
    cases hs : (countF 81 g 0).1
    · rfl
    · have h2 := hok.2.1 hs
      have : (count_solutions g).1 = (countF 81 g 0).2.2 := rfl
      omega
  have hres := countF_restore 81 g 0 hsig
  intro r hr c hc
  show (countF 81 g 0).2.1 r c = g r c
  rw [hres]

/-- C2 witness: the amended frame property at a concrete grid whose count is
at most 1 (a complete grid counts exactly one solution). -/
theorem c2_witness :
    (count_solutions classicSolved).1 ≤ 1 ∧
    gridEq (count_solutions classicSolved).2 classicSolved ∧
    (has_unique_solution_state classicSolved).2 = classicSolved :=
  ⟨by decide, (c2_oracle_frame classicSolved).2 (by decide),
    (c2_oracle_frame classicSolved).1⟩

/-- C3: the checker returns 0 exactly when some cell other than the target,
in the same row, column, or box, already holds the value; the target cell
itself is excluded, so it never self-conflicts. -/
theorem c3_checker_contract : ∀ (g : Grid) (r c v : Nat),
    r < 9 → c < 9 → 1 ≤ v → v ≤ 9 →
    (is_valid_placement g r c v = false ↔ conflictsAt g r c v) := by
  intro g r c v hr hc _ _
  constructor
  · intro h
    have hne : ¬ (is_valid_placement g r c v = true) := by simp [h]
    rw [is_valid_placement_iff hr hc] at hne
    exact (not_validAt_iff_conflictsAt hr hc).1 hne
  · intro h
    cases hb : is_valid_placement g r c v
    · rfl
    · exact absurd ((is_valid_placement_iff hr hc).1 hb)
        ((not_validAt_iff_conflictsAt hr hc).2 h)

/-- C3 witness: the contract instantiated at a filled cell of a complete
grid; the cell already holds the value, and the call does not
self-conflict. -/
theorem c3_witness :
    (0 < 9 ∧ 1 < 9 ∧ 1 ≤ 3 ∧ 3 ≤ 9) ∧
    (is_valid_placement classicSolved 0 1 3 = false ↔
      conflictsAt classicSolved 0 1 3) :=
  ⟨by decide, c3_checker_contract classicSolved 0 1 3 (by decide) (by decide)
    (by decide) (by decide)⟩

/-- C4: on a grid with exactly one valid completion, solve_grid succeeds and
the final grid is that unique completion; in particular it reproduces the
generator's stored solution. -/
theorem c4_solve_roundtrip : ∀ (g sol : Grid),
    isCompletion g sol → (∀ t, isCompletion g t → gridEq t sol) →
    (solve_grid g).1 = true ∧ gridEq (solve_grid g).2 sol := by
  intro g sol h1 h2
  have hsucc : (solveF 81 g).1 = true :=
    solveF_complete 81 g (numEmpty_le_81 g) ⟨sol, h1⟩
  have hsf := solveF_sound 81 g hsucc
  have hres : isCompletion g (solveF 81 g).2.1 := by
    obtain ⟨hext, hdig, hcomp, hval⟩ := hsf
    refine ⟨hext, ?_, hval (validG_of_extends h1.1 h1.2.2)⟩
    intro r c hr hc
    rcases hdig r c hr hc with h | h
    · have hnz : g r c ≠ 0 := by
        intro hz
        exact hcomp r hr c hc (by rw [h, hz])
      have hsg := h1.1 r c hr hc hnz
      have hd := h1.2.1 r c hr hc
      rw [h, ← hsg]
      exact hd
    · exact h
  exact ⟨hsucc, h2 _ hres⟩

/-- C4 witness: solving the classic solved grid with two cells blanked, a
grid with exactly one completion, returns that completion. -/
theorem c4_witness :
    isCompletion uniq2Grid classicSolved ∧
    ((solve_grid uniq2Grid).1 = true ∧
      gridEq (solve_grid uniq2Grid).2 classicSolved) :=
  have h1 : isCompletion uniq2Grid classicSolved := by decide
  have h2 : ∀ t, isCompletion uniq2Grid t → gridEq t classicSolved :=
    fun t ht => oracle_unique
      (by decide : (countF 81 uniq2Grid 0).2.2 = 1) t classicSolved ht h1
  ⟨h1, c4_solve_roundtrip uniq2Grid classicSolved h1 h2⟩

/-- C5 counterexample: invalidFullGrid is unsatisfiable (it is complete and
already violates the rules, so it admits no valid completion), yet
solve_grid returns 1 on it, not 0: the claim that unsatisfiable input makes
solve_grid return 0 fails when the inconsistency sits entirely among the
already-filled cells. -/
theorem c5_counterexample :
    (¬ ∃ t, isCompletion invalidFullGrid t) ∧
    (solve_grid invalidFullGrid).1 = true := by
  constructor
  · rintro ⟨t, ht⟩
    have hcomp : isComplete invalidFullGrid := by decide
    have heq : gridEq t invalidFullGrid := completion_of_complete hcomp ht
    have heq2 : gridEq invalidFullGrid t := fun r hr c hc => (heq r hr c hc).symm
    exact absurd (validG_of_gridEq heq2 ht.2.2)
      (by decide : ¬ validG invalidFullGrid)
  · decide

/-- C5 as amended: solve_grid returns 0 only on grids with no valid
completion; whenever a valid completion exists it returns 1 and leaves the
grid complete and valid.  On unsatisfiable input it terminates rather than
looping or crashing, but it may return 1 instead of 0 when the
inconsistency is confined to the initially filled cells (which the
self-excluding checker never re-examines), as on a complete invalid grid. -/
theorem c5_solver_totality : ∀ g : Grid,
    ((∃ t, isCompletion g t) →
      (solve_grid g).1 = true ∧ isComplete (solve_grid g).2 ∧
        validG (solve_grid g).2) ∧
    ((solve_grid g).1 = false → ¬ ∃ t, isCompletion g t) := by
  intro g
  constructor
  · rintro ⟨t, ht⟩
    have hsucc : (solveF 81 g).1 = true :=
      solveF_complete 81 g (numEmpty_le_81 g) ⟨t, ht⟩
    have hsf := solveF_sound 81 g hsucc
    exact ⟨hsucc, hsf.2.2.1, hsf.2.2.2 (validG_of_extends ht.1 ht.2.2)⟩
  · rintro hfail ⟨t, ht⟩
    have hsucc : (solveF 81 g).1 = true :=
      solveF_complete 81 g (numEmpty_le_81 g) ⟨t, ht⟩
    have hcontra := hsucc.symm.trans hfail
    simp at hcontra

/-- C5 witness: the amended property on a satisfiable concrete grid. -/
theorem c5_witness :
    (∃ t, isCompletion uniq2Grid t) ∧
    ((solve_grid uniq2Grid).1 = true ∧ isComplete (solve_grid uniq2Grid).2 ∧
      validG (solve_grid uniq2Grid).2) :=
  ⟨⟨classicSolved, by decide⟩,
    (c5_solver_totality uniq2Grid).1 ⟨classicSolved, by decide⟩⟩

/-- C6: for game states whose given cells are all non-empty, get_hint is
exactly the specified strategy cascade (naked single in row-major order,
then hidden single with digits outermost and rows, columns, boxes in that
order, then the row-major fallback reveal from the solution), and it
returns no hint exactly when the grid is completely filled. -/
theorem c6_hint_cascade : ∀ (g sol given : Grid),
    (∀ r, r < 9 → ∀ c, c < 9 → given r c ≠ 0 → g r c ≠ 0) →
    get_hint g sol given = hintCascadeSpec g sol given ∧
    (get_hint g sol given = none ↔ is_grid_complete g = true) := by
  intro g sol given h
  exact ⟨get_hint_eq g sol given,
    get_hint_none_iff g sol given (fun r c hr hc => h r hr c hc)⟩

/-- C6 witness: the cascade property on a concrete completed game state. -/
theorem c6_witness :
    (∀ r, r < 9 → ∀ c, c < 9 →
      givenOf classicSolved r c ≠ 0 → classicSolved r c ≠ 0) ∧
    (get_hint classicSolved classicSolved (givenOf classicSolved) =
        hintCascadeSpec classicSolved classicSolved (givenOf classicSolved) ∧
      (get_hint classicSolved classicSolved (givenOf classicSolved) = none ↔
        is_grid_complete classicSolved = true)) :=
  ⟨by decide, c6_hint_cascade classicSolved classicSolved
    (givenOf classicSolved) (by decide)⟩

/-- C9: is_grid_valid agrees with the per-cell definition: it returns 1
exactly when every filled cell passes is_valid_placement for its own value
against the rest of the grid; completeness is not required. -/
theorem c9_grid_valid_refines : ∀ g : Grid,
    is_grid_valid g = true ↔
      (∀ r, r < 9 → ∀ c, c < 9 → g r c ≠ 0 →
        is_valid_placement g r c (g r c) = true) := by
  intro g
  rw [is_grid_valid_iff_pointwise]
  constructor
  · intro h r hr c hc hnz
    exact (is_valid_placement_iff hr hc).2 (h r c hr hc hnz)
  · intro h r c hr hc hnz
    exact (is_valid_placement_iff hr hc).1 (h r hr c hc hnz)

/-- C9 witness: the equivalence instantiated at a concrete grid. -/
theorem c9_witness :
    is_grid_valid classicSolved = true ↔
      (∀ r, r < 9 → ∀ c, c < 9 → classicSolved r c ≠ 0 →
        is_valid_placement classicSolved r c (classicSolved r c) = true) :=
  c9_grid_valid_refines classicSolved

/-- C10: solver failure is atomic: whenever solve_grid returns 0 the grid it
leaves behind equals the grid it was given, every tentative placement
having been reset during backtracking. -/
theorem c10_solver_failure_atomic : ∀ g : Grid,
    (solve_grid g).1 = false → gridEq (solve_grid g).2 g := by
  intro g h
  have hres := solveF_restore 81 g h
  intro r hr c hc
  show (solveF 81 g).2.1 r c = g r c
  rw [hres]

/-- C10 witness: a concrete unsatisfiable grid on which the solver fails and
returns its input unchanged. -/
theorem c10_witness :
    (solve_grid stuckGrid).1 = false ∧
    gridEq (solve_grid stuckGrid).2 stuckGrid :=
  ⟨by decide, c10_solver_failure_atomic stuckGrid (by decide)⟩
